import Mathlib

/-!
Verification of the block-oriented concurrent write engine
(`src/core/src/raw/oio/write/block_write.rs`) and of the typed key-value
adapter defaults (`src/core/src/raw/adapters/typed_kv/api.rs`).

The Rust engine is shallowly embedded as a deterministic state-transition
system.  Backend failures are injected by an explicit oracle (`flips`): a
list consumed one entry per fallible backend call, where `none` means the
call succeeds and `some e` means the call fails with the opaque backend
error `e`.  Asynchronous block uploads are resolved at the moment the
writer awaits the pool (`ConcurrentFutures::next`), which is the only
point at which their outcome is observable to the engine.

`ConcurrentFutures` itself is code of this repository that is not under
`src/`; it is modelled from the specification (section 4.1, Bounded
Ordered Concurrent Task Pool): a FIFO queue of at most `limit` in-flight
operations whose results are yielded strictly in submission order, with
`push_front` used to re-enqueue a failed operation at the head.
-/

namespace OpendalBlockWrite

/-- Byte payload of a chunk; models the byte sequence carried by opendal
`Buffer`.  `Buffer::new()` is `[]` and `len` is `List.length`. -/
abbrev Buffer := List Nat

/-- Block identifier.  The source generates identifiers with
`Uuid::new_v4()`, a fresh globally unique random identifier per generated
block; we model the generator as the counter `nextId`, which keeps exactly
the freshness property the writer relies on. -/
abbrev Uuid := Nat

/-- A backend call observed by a `BlockWrite` service, mirroring the four
trait methods `write_once`, `write_block`, `complete_block` and
`abort_block` of block_write.rs lines 62-90. -/
inductive Event where
  | write_once (size : Nat) (body : Buffer)
  | write_block (id : Uuid) (size : Nat) (body : Buffer)
  | complete_block (ids : List Uuid)
  | abort_block (ids : List Uuid)
deriving DecidableEq

/-- True exactly on `write_once` events. -/
def isWO : Event → Bool
  | Event.write_once _ _ => true
  | _ => false

/-- True exactly on `write_block` events. -/
def isWB : Event → Bool
  | Event.write_block _ _ _ => true
  | _ => false

/-- True exactly on `complete_block` events. -/
def isCB : Event → Bool
  | Event.complete_block _ => true
  | _ => false

/-- State of a `BlockWriter<W>` session together with the observable state
of its backend and the failure oracle.

Writer fields (block_write.rs lines 133-139): `block_ids` is the committed
block list, `cache` the at-most-one pending chunk, and `tasks`/`limit`
model the `ConcurrentFutures<WriteBlockFuture>` pool (modelled from the
spec, section 4.1): `tasks` is the FIFO queue of queued/in-flight block
uploads, each carrying its identifier and payload as `WriteBlockFuture`
does, and `limit` is the pool capacity.

Environment fields: `nextId` models the `Uuid::new_v4` generator, `store`
is the backend content (one entry appended per successful `write_block`),
`trace` the sequence of backend calls made so far, and `flips` the failure
oracle. -/
structure WriterState where
  block_ids : List Uuid
  cache : Option Buffer
  tasks : List (Uuid × Buffer)
  limit : Nat
  nextId : Uuid
  store : List (Uuid × Buffer)
  trace : List Event
  flips : List (Option Nat)
deriving DecidableEq

/-- Consume one oracle entry: `none` means the backend call succeeds, and
an exhausted oracle means every remaining call succeeds. -/
def takeFlip (flips : List (Option Nat)) : Option Nat × List (Option Nat) :=
  match flips with
  | [] => (none, [])
  | f :: rest => (f, rest)

/-- `BlockWriter::new` (block_write.rs lines 143-150): empty committed
list, empty cache, and a pool of capacity `1.max(concurrent)`. -/
def newWriter (concurrent : Nat) (flips : List (Option Nat)) : WriterState :=
  { block_ids := []
    cache := none
    tasks := []
    limit := max 1 concurrent
    nextId := 0
    store := []
    trace := []
    flips := flips }

/-- `BlockWriter::fill_cache` (block_write.rs lines 152-157).  The Rust
`assert!(self.cache.is_none())` is modelled by returning `none` (panic)
when the cache already holds a chunk. -/
def fill_cache (st : WriterState) (bs : Buffer) : Option (WriterState × Nat) :=
  match st.cache with
  | some _ => none
  | none => some ({ st with cache := some bs }, bs.length)

/-- Awaiting `self.futures.next()`: the pool (modelled from the spec,
section 4.1) yields the result of the head task of the FIFO queue, or
`none` when the queue is empty.  The head task is the body of
`WriteBlockFuture::new` (block_write.rs lines 116-129): it performs the
backend `write_block` call and maps a failure to `(block_id, bytes, err)`
so that the caller can retry, and a success to the block id.  The outcome
of the upload is decided by the oracle; a success appends the block to the
backend `store`. -/
def poolNext (st : WriterState) :
    Option (WriterState × Except (Uuid × Buffer × Nat) Uuid) :=
  match st.tasks with
  | [] => none
  | (id, p) :: rest =>
    let fr := takeFlip st.flips
    let tr := st.trace ++ [Event.write_block id p.length p]
    match fr.1 with
    | none =>
      some ({ st with tasks := rest, flips := fr.2, trace := tr,
                      store := st.store ++ [(id, p)] }, Except.ok id)
    | some e =>
      some ({ st with tasks := rest, flips := fr.2, trace := tr },
            Except.error (id, p, e))

/-- Body of the `loop` of `BlockWriter::write` (block_write.rs lines
164-199), unrolled on explicit fuel.  Each iteration: if the pool has
remaining capacity, fill the empty cache and return, or move the cached
chunk into a fresh block pushed at the back of the pool and cache the
incoming chunk; otherwise await the head task, appending its id to
`block_ids` on success and continuing, or re-enqueuing the failed block at
the front and returning the error.  `none` models the two unreachable
outcomes: the `fill_cache` assertion firing, and the loop spinning forever
(pool empty yet reported full, impossible with capacity at least 1). -/
def writeAux (fuel : Nat) (st : WriterState) (bs : Buffer) :
    Option (WriterState × Except Nat Nat) :=
  match fuel with
  | 0 => none
  | fuel + 1 =>
    if st.tasks.length < st.limit then
      match st.cache with
      | none =>
        match fill_cache st bs with
        | none => none
        | some (st1, size) => some (st1, Except.ok size)
      | some c =>
        let st1 := { st with cache := none,
                             tasks := st.tasks ++ [(st.nextId, c)],
                             nextId := st.nextId + 1 }
        match fill_cache st1 bs with
        | none => none
        | some (st2, size) => some (st2, Except.ok size)
    else
      match poolNext st with
      | none => none
      | some (st1, Except.ok id) =>
        writeAux fuel { st1 with block_ids := st1.block_ids ++ [id] } bs
      | some (st1, Except.error (id, p, e)) =>
        some ({ st1 with tasks := (id, p) :: st1.tasks }, Except.error e)

/-- `BlockWriter::write`.  The loop pops at most one task per iteration,
so `tasks.length + 2` iterations always suffice to reach a return. -/
def write (st : WriterState) (bs : Buffer) : Option (WriterState × Except Nat Nat) :=
  writeAux (st.tasks.length + 2) st bs

/-- The cache-draining step at the top of the close loop (block_write.rs
lines 215-225): when the pool has remaining capacity, the cached chunk, if
any, is moved into a fresh block pushed at the back of the pool. -/
def drainCache (st : WriterState) : WriterState :=
  if st.tasks.length < st.limit then
    match st.cache with
    | some c =>
      { st with cache := none,
                tasks := st.tasks ++ [(st.nextId, c)],
                nextId := st.nextId + 1 }
    | none => st
  else st

/-- The `loop` of `BlockWriter::close` (block_write.rs lines 214-246),
unrolled on explicit fuel, followed by the `complete_block` call on the
committed list once the pool reports empty.  Failures of head tasks
re-enqueue the failed block at the front and return the error; the
`complete_block` outcome is decided by the oracle and returned as is. -/
def closeLoopAux (fuel : Nat) (st : WriterState) :
    Option (WriterState × Except Nat Unit) :=
  match fuel with
  | 0 => none
  | fuel + 1 =>
    let st1 := drainCache st
    match poolNext st1 with
    | none =>
      let fr := takeFlip st1.flips
      let st2 := { st1 with flips := fr.2,
                            trace := st1.trace ++ [Event.complete_block st1.block_ids] }
      match fr.1 with
      | none => some (st2, Except.ok ())
      | some e => some (st2, Except.error e)
    | some (st2, Except.ok id) =>
      closeLoopAux fuel { st2 with block_ids := st2.block_ids ++ [id] }
    | some (st2, Except.error (id, p, e)) =>
      some ({ st2 with tasks := (id, p) :: st2.tasks }, Except.error e)

/-- The general (block) path of `BlockWriter::close`.  Each loop iteration
pops one task after draining the at most one cached chunk, so
`tasks.length + 2` iterations always suffice. -/
def closeLoop (st : WriterState) : Option (WriterState × Except Nat Unit) :=
  closeLoopAux (st.tasks.length + 2) st

/-- `BlockWriter::close` (block_write.rs lines 201-246).  When no write
block has been sent (`futures.is_empty() && block_ids.is_empty()`), the
fast path issues a single `write_once` with the cached bytes, or an empty
payload when no write ever occurred, clearing the cache only after the
call succeeds; otherwise the drain loop runs. -/
def close (st : WriterState) : Option (WriterState × Except Nat Unit) :=
  if st.tasks = [] ∧ st.block_ids = [] then
    let body := st.cache.getD []
    let fr := takeFlip st.flips
    let st1 := { st with flips := fr.2,
                         trace := st.trace ++ [Event.write_once body.length body] }
    match fr.1 with
    | none => some ({ st1 with cache := none }, Except.ok ())
    | some e => some (st1, Except.error e)
  else
    closeLoop st

/-- `BlockWriter::abort` (block_write.rs lines 248-250): a single
`abort_block` call carrying the committed list; its outcome is decided by
the oracle and returned as is. -/
def abort (st : WriterState) : WriterState × Except Nat Unit :=
  let fr := takeFlip st.flips
  let st1 := { st with flips := fr.2,
                       trace := st.trace ++ [Event.abort_block st.block_ids] }
  match fr.1 with
  | none => (st1, Except.ok ())
  | some e => (st1, Except.error e)

/-- A public call of the `oio::Write` contract implemented by the
writer. -/
inductive Op where
  | write (bs : Buffer)
  | close
  | abort
deriving DecidableEq

/-- Apply one public call, keeping only the resulting state. -/
def applyOp (st : WriterState) : Op → Option WriterState
  | Op.write bs => (write st bs).map Prod.fst
  | Op.close => (close st).map Prod.fst
  | Op.abort => some (abort st).1

/-- Apply a sequence of public calls. -/
def runOps (st : WriterState) : List Op → Option WriterState
  | [] => some st
  | op :: ops =>
    match applyOp st op with
    | none => none
    | some st1 => runOps st1 ops

/-- Caller-driven retry of a single `write` call: the same bytes are
resubmitted until the call succeeds, as in the retry loops of the test of
block_write.rs lines 335-340.  `fuel` bounds the number of attempts. -/
def driveWrite (fuel : Nat) (st : WriterState) (bs : Buffer) : Option WriterState :=
  match fuel with
  | 0 => none
  | fuel + 1 =>
    match write st bs with
    | none => none
    | some (st1, Except.ok _) => some st1
    | some (st1, Except.error _) => driveWrite fuel st1 bs

/-- Submit a sequence of chunks, retrying each failed `write` call until
it is accepted. -/
def driveWrites (fuel : Nat) (st : WriterState) : List Buffer → Option WriterState
  | [] => some st
  | bs :: rest =>
    match driveWrite fuel st bs with
    | none => none
    | some st1 => driveWrites fuel st1 rest

/-- Caller-driven retry of `close` until it succeeds, as in the retry loop
of block_write.rs lines 343-348. -/
def driveClose (fuel : Nat) (st : WriterState) : Option WriterState :=
  match fuel with
  | 0 => none
  | fuel + 1 =>
    match close st with
    | none => none
    | some (st1, Except.ok _) => some st1
    | some (st1, Except.error _) => driveClose fuel st1

/-- A complete write session: a fresh writer, the chunks of `bss` each
written with caller-driven retry, then `close` with caller-driven
retry. -/
def runSession (fuel : Nat) (concurrent : Nat) (flips : List (Option Nat))
    (bss : List Buffer) : Option WriterState :=
  match driveWrites fuel (newWriter concurrent flips) bss with
  | none => none
  | some st => driveClose fuel st

/-- The buffers held by the pending cache, as a list of zero or one
chunks. -/
def cacheList (c : Option Buffer) : List Buffer :=
  match c with
  | none => []
  | some b => [b]

/-- Session invariant of the writer, relative to the list `accepted` of
chunks accepted by `write` so far (in acceptance order): the pool capacity
is at least one and never exceeded; the committed identifiers followed by
the queued identifiers are exactly the generated identifiers in generation
order; the backend store is keyed by the committed list in order; the
stored payloads followed by the queued payloads and the cached chunk are
exactly the accepted chunks in order; and the store never holds more
blocks than `write_block` calls were made. -/
structure Inv (st : WriterState) (accepted : List Buffer) : Prop where
  limit_pos : 1 ≤ st.limit
  tasks_le : st.tasks.length ≤ st.limit
  ids_range : st.block_ids ++ st.tasks.map Prod.fst = List.range st.nextId
  store_ids : st.store.map Prod.fst = st.block_ids
  chunks : st.store.map Prod.snd ++ st.tasks.map Prod.snd ++ cacheList st.cache = accepted
  store_wb : st.store.length ≤ st.trace.countP isWB

end OpendalBlockWrite

namespace OpendalTypedKv

/-- Error kinds relevant to the typed key-value adapter surface
(typed_kv/api.rs uses `ErrorKind::Unsupported` for the scan defaults). -/
inductive TkErrorKind where
  | Unexpected
  | Unsupported
deriving DecidableEq

/-- An opendal error as observed through the typed key-value adapter:
its kind and the operation recorded by `with_operation`.  The human
readable message text is not modelled. -/
structure TkError where
  kind : TkErrorKind
  operation : String
deriving DecidableEq

/-- Default body of `typed_kv::Adapter::scan` (typed_kv/api.rs lines
69-77): ignore the path and return an `Unsupported` error tagged with the
operation name. -/
def adapterScanDefault (_path : String) : Except TkError (List String) :=
  Except.error { kind := TkErrorKind.Unsupported,
                 operation := "typed_kv::Adapter::scan" }

/-- Default body of `typed_kv::Adapter::blocking_scan` (typed_kv/api.rs
lines 81-89). -/
def adapterBlockingScanDefault (_path : String) : Except TkError (List String) :=
  Except.error { kind := TkErrorKind.Unsupported,
                 operation := "typed_kv::Adapter::blocking_scan" }

end OpendalTypedKv


namespace OpendalBlockWrite

/-- An empty pool is the only case in which awaiting the pool yields
nothing. -/
theorem poolNext_none {st : WriterState} (h : poolNext st = none) : st.tasks = [] := by
  rcases hts : st.tasks with _ | ⟨⟨id, p⟩, rest⟩
  · rfl
  · exfalso
    rw [poolNext, hts] at h
    rcases hfl : st.flips with _ | ⟨f, fr⟩ <;> rw [hfl] at h
    · simp [takeFlip] at h
    · rcases f with _ | e <;> simp [takeFlip] at h

/-- Full characterization of one await of the pool: the head task is
popped, a `write_block` call is recorded, and the oracle decides between
appending the block to the backend store (success) and returning the
identifier with the payload for retry (failure). -/
theorem poolNext_spec {st st' : WriterState} {r : Except (Uuid × Buffer × Nat) Uuid}
    (h : poolNext st = some (st', r)) :
    ∃ i p rest, st.tasks = (i, p) :: rest ∧ st'.tasks = rest ∧
      st'.cache = st.cache ∧ st'.limit = st.limit ∧ st'.nextId = st.nextId ∧
      st'.block_ids = st.block_ids ∧
      st'.trace = st.trace ++ [Event.write_block i p.length p] ∧
      ((r = Except.ok i ∧ st'.store = st.store ++ [(i, p)]) ∨
       (∃ e, r = Except.error (i, p, e) ∧ st'.store = st.store ∧
         st.flips = some e :: st'.flips)) := by
  rcases hts : st.tasks with _ | ⟨⟨i, p⟩, rest⟩
  · rw [poolNext, hts] at h
    simp at h
  · rw [poolNext, hts] at h
    refine ⟨i, p, rest, rfl, ?_⟩
    rcases hfl : st.flips with _ | ⟨f, fr⟩
    · rw [hfl] at h
      simp only [takeFlip, Option.some.injEq, Prod.mk.injEq] at h
      obtain ⟨hst, hr⟩ := h
      subst hst
      subst hr
      simp [hfl]
    · rw [hfl] at h
      rcases f with _ | e
      · simp only [takeFlip, Option.some.injEq, Prod.mk.injEq] at h
        obtain ⟨hst, hr⟩ := h
        subst hst
        subst hr
        simp [hfl]
      · simp only [takeFlip, Option.some.injEq, Prod.mk.injEq] at h
        obtain ⟨hst, hr⟩ := h
        subst hst
        subst hr
        simp [hfl]

/-- Successfully popping the head block and appending its identifier to
the committed list preserves the session invariant, frees one pool slot,
and records one `write_block` call. -/
theorem popOk_inv {st st' : WriterState} {i : Uuid} {accepted : List Buffer}
    (hInv : Inv st accepted) (h : poolNext st = some (st', Except.ok i)) :
    Inv { st' with block_ids := st'.block_ids ++ [i] } accepted ∧
    st'.tasks.length + 1 = st.tasks.length ∧ st'.limit = st.limit ∧
    st'.cache = st.cache ∧ st'.nextId = st.nextId ∧
    ∃ p, st'.trace = st.trace ++ [Event.write_block i p.length p] := by
  obtain ⟨i0, p, rest, hts, hts', hc, hl, hn, hb, htr, hres⟩ := poolNext_spec h
  rcases hres with ⟨hid, hstore⟩ | ⟨e, habs, -, -⟩
  · have hi : i = i0 := by injection hid
    subst hi
    have hlen : st.tasks.length = rest.length + 1 := by rw [hts]; rfl
    have hrest : st'.tasks.length = rest.length := by rw [hts']
    have hidr := hInv.ids_range
    rw [hts] at hidr
    have hch := hInv.chunks
    rw [hts] at hch
    have htle := hInv.tasks_le
    have hwb := hInv.store_wb
    refine ⟨⟨?_, ?_, ?_, ?_, ?_, ?_⟩, by omega, hl, hc, hn, p, htr⟩
    · show 1 ≤ st'.limit
      rw [hl]
      exact hInv.limit_pos
    · show st'.tasks.length ≤ st'.limit
      rw [hl]
      omega
    · show (st'.block_ids ++ [i]) ++ st'.tasks.map Prod.fst = List.range st'.nextId
      rw [hts', hb, hn, List.append_assoc]
      simpa using hidr
    · show st'.store.map Prod.fst = st'.block_ids ++ [i]
      rw [hstore, List.map_append, hInv.store_ids, hb]
      simp
    · show st'.store.map Prod.snd ++ st'.tasks.map Prod.snd ++ cacheList st'.cache = accepted
      rw [hstore, hts', hc, List.map_append]
      simpa [List.append_assoc] using hch
    · show st'.store.length ≤ st'.trace.countP isWB
      rw [hstore, htr]
      simp [List.countP_append, List.countP_cons, isWB]
      omega
  · exact Except.noConfusion habs

/-- `fill_cache` on an empty cache stores the chunk and returns its
length; the assertion cannot fire. -/
theorem fill_cache_none {st : WriterState} {bs : Buffer} (h : st.cache = none) :
    fill_cache st bs = some ({ st with cache := some bs }, bs.length) := by
  rw [fill_cache, h]

/-- One iteration of the write loop with remaining pool capacity: the
cached chunk, if any, is moved into a fresh block at the back of the pool,
the incoming chunk is cached, and its length is accepted.  No backend call
is made and the invariant is preserved. -/
theorem writeReady_sound {fuel : Nat} {st : WriterState} {accepted : List Buffer} {bs : Buffer}
    {st' : WriterState} {r : Except Nat Nat}
    (hInv : Inv st accepted) (hcap : st.tasks.length < st.limit)
    (h : writeAux (fuel + 1) st bs = some (st', r)) :
    r = Except.ok bs.length ∧ Inv st' (accepted ++ [bs]) ∧ st'.cache = some bs ∧
    st'.limit = st.limit ∧ st'.trace = st.trace ∧ st'.store = st.store ∧
    st'.block_ids = st.block_ids := by
  rw [writeAux, if_pos hcap] at h
  rcases hcache : st.cache with _ | c
  · rw [hcache, fill_cache_none hcache] at h
    simp only [Option.some.injEq, Prod.mk.injEq] at h
    obtain ⟨hst, hr⟩ := h
    subst hst
    subst hr
    have hch := hInv.chunks
    rw [hcache] at hch
    refine ⟨rfl, ⟨hInv.limit_pos, hInv.tasks_le, hInv.ids_range, hInv.store_ids, ?_, hInv.store_wb⟩,
      rfl, rfl, rfl, rfl, rfl⟩
    show st.store.map Prod.snd ++ st.tasks.map Prod.snd ++ cacheList (some bs) = accepted ++ [bs]
    simp only [cacheList] at hch ⊢
    rw [List.append_nil] at hch
    rw [← hch]
  · rw [hcache] at h
    have hfc : fill_cache { st with cache := none, tasks := st.tasks ++ [(st.nextId, c)], nextId := st.nextId + 1 } bs = some ({ st with cache := some bs, tasks := st.tasks ++ [(st.nextId, c)], nextId := st.nextId + 1 }, bs.length) := rfl
    simp only [hfc, Option.some.injEq, Prod.mk.injEq] at h
    obtain ⟨hst, hr⟩ := h
    subst hst
    subst hr
    have hch := hInv.chunks
    rw [hcache] at hch
    refine ⟨rfl, ⟨hInv.limit_pos, ?_, ?_, hInv.store_ids, ?_, hInv.store_wb⟩,
      rfl, rfl, rfl, rfl, rfl⟩
    · show (st.tasks ++ [(st.nextId, c)]).length ≤ st.limit
      rw [List.length_append]
      simpa using hcap
    · show st.block_ids ++ (st.tasks ++ [(st.nextId, c)]).map Prod.fst =
        List.range (st.nextId + 1)
      rw [List.map_append, List.range_succ, ← hInv.ids_range]
      simp [List.append_assoc]
    · show st.store.map Prod.snd ++ (st.tasks ++ [(st.nextId, c)]).map Prod.snd ++
        cacheList (some bs) = accepted ++ [bs]
      rw [List.map_append]
      simp only [cacheList] at hch ⊢
      rw [← hch]
      simp [List.append_assoc]

/-- Soundness of the write loop under the invariant: the call either
accepts the chunk, caching it and extending the accepted ledger, or fails
on the first awaited head task, leaving the committed list, the cache and
the queued work exactly as they were (the failed block is re-enqueued at
the front with its original identifier and payload) and passing the
backend error through unchanged.  Only `write_block` calls are made. -/
theorem writeAux_sound {f : Nat} {st : WriterState} {accepted : List Buffer} {bs : Buffer}
    {st' : WriterState} {r : Except Nat Nat}
    (hInv : Inv st accepted) (h : writeAux (f + 1 + 1) st bs = some (st', r)) :
    st'.limit = st.limit ∧
    (∃ tr, st'.trace = st.trace ++ tr ∧ ∀ ev ∈ tr, isWB ev = true) ∧
    ((r = Except.ok bs.length ∧ Inv st' (accepted ++ [bs]) ∧ st'.cache = some bs) ∨
     (∃ e, r = Except.error e ∧ Inv st' accepted ∧ st'.tasks = st.tasks ∧
       st'.cache = st.cache ∧ st'.block_ids = st.block_ids ∧ st'.nextId = st.nextId ∧
       st'.store = st.store ∧ st.flips = some e :: st'.flips)) := by
  by_cases hcap : st.tasks.length < st.limit
  · obtain ⟨hr, hI, hc, hl, htr, hs, hb⟩ := writeReady_sound hInv hcap h
    exact ⟨hl, ⟨[], by simp [htr], by simp⟩, Or.inl ⟨hr, hI, hc⟩⟩
  · rw [writeAux, if_neg hcap] at h
    split at h
    · exact absurd h (by simp)
    · rename_i st1 i hp
      obtain ⟨hI2, hlen, hl1, hc1, hn1, p0, htr1⟩ := popOk_inv hInv hp
      have htle := hInv.tasks_le
      have hcap2 : st1.tasks.length < st1.limit := by
        rw [hl1]
        omega
      obtain ⟨hr, hI', hc', hl', htr', hs', hb'⟩ := writeReady_sound hI2 hcap2 h
      refine ⟨?_, ?_, Or.inl ⟨hr, hI', hc'⟩⟩
      · show st'.limit = st.limit
        rw [← hl1]
        exact hl'
      · refine ⟨[Event.write_block i p0.length p0], ?_, by simp [isWB]⟩
        show st'.trace = st.trace ++ [Event.write_block i p0.length p0]
        rw [← htr1]
        exact htr'
    · rename_i st1 i p e hp
      simp only [Option.some.injEq, Prod.mk.injEq] at h
      obtain ⟨hst, hr⟩ := h
      subst hst
      subst hr
      obtain ⟨i0, p0, rest, hts, hts', hc, hl, hn, hb, htr, hres⟩ := poolNext_spec hp
      rcases hres with ⟨habs, -⟩ | ⟨e0, heq, hstore, hfl⟩
      · exact Except.noConfusion habs
      · have hi : i0 = i ∧ p0 = p ∧ e0 = e := by
          have h1 : (i0, p0, e0) = (i, p, e) := by
            injection heq with hx
            exact hx.symm
          have h2 := congrArg Prod.fst h1
          have h3 := congrArg (fun q => q.2.1) h1
          have h4 := congrArg (fun q => q.2.2) h1
          exact ⟨h2, h3, h4⟩
        obtain ⟨hi0, hp0, he0⟩ := hi
        subst hi0
        subst hp0
        subst he0
        have htasks : (st1.tasks : List (Uuid × Buffer)) = rest := hts'
        refine ⟨hl, ⟨[Event.write_block i0 p0.length p0], htr, by simp [isWB]⟩,
          Or.inr ⟨e0, rfl, ⟨?_, ?_, ?_, ?_, ?_, ?_⟩, ?_, hc, hb, hn, hstore, ?_⟩⟩
        · show 1 ≤ st1.limit
          rw [hl]
          exact hInv.limit_pos
        · show ((i0, p0) :: st1.tasks).length ≤ st1.limit
          rw [htasks, hl, ← hts]
          exact hInv.tasks_le
        · show st1.block_ids ++ ((i0, p0) :: st1.tasks).map Prod.fst = List.range st1.nextId
          rw [htasks, hb, hn, ← hInv.ids_range, hts]
        · show st1.store.map Prod.fst = st1.block_ids
          rw [hstore, hb]
          exact hInv.store_ids
        · show st1.store.map Prod.snd ++ ((i0, p0) :: st1.tasks).map Prod.snd ++
              cacheList st1.cache = accepted
          rw [htasks, hstore, hc, ← hInv.chunks, hts]
        · show st1.store.length ≤ st1.trace.countP isWB
          rw [hstore, htr]
          have := hInv.store_wb
          simp [List.countP_append]
          omega
        · show (i0, p0) :: st1.tasks = st.tasks
          rw [htasks, hts]
        · exact hfl

/-- Soundness of `BlockWriter::write` under the invariant. -/
theorem write_sound {st : WriterState} {accepted : List Buffer} {bs : Buffer}
    {st' : WriterState} {r : Except Nat Nat}
    (hInv : Inv st accepted) (h : write st bs = some (st', r)) :
    st'.limit = st.limit ∧
    (∃ tr, st'.trace = st.trace ++ tr ∧ ∀ ev ∈ tr, isWB ev = true) ∧
    ((r = Except.ok bs.length ∧ Inv st' (accepted ++ [bs]) ∧ st'.cache = some bs) ∨
     (∃ e, r = Except.error e ∧ Inv st' accepted ∧ st'.tasks = st.tasks ∧
       st'.cache = st.cache ∧ st'.block_ids = st.block_ids ∧ st'.nextId = st.nextId ∧
       st'.store = st.store ∧ st.flips = some e :: st'.flips)) := by
  have h' : writeAux (st.tasks.length + 1 + 1) st bs = some (st', r) := h
  exact writeAux_sound hInv h'

/-- With remaining pool capacity, one iteration of the write loop always
returns. -/
theorem writeReady_total (fuel : Nat) {st : WriterState} (bs : Buffer)
    (hcap : st.tasks.length < st.limit) :
    ∃ st' r, writeAux (fuel + 1) st bs = some (st', r) := by
  rw [writeAux, if_pos hcap]
  rcases hcache : st.cache with _ | c
  · refine ⟨{ st with cache := some bs }, Except.ok bs.length, ?_⟩
    rw [fill_cache_none hcache]
  · have hfc : fill_cache { st with cache := none, tasks := st.tasks ++ [(st.nextId, c)], nextId := st.nextId + 1 } bs = some ({ st with cache := some bs, tasks := st.tasks ++ [(st.nextId, c)], nextId := st.nextId + 1 }, bs.length) := rfl
    refine ⟨{ st with cache := some bs, tasks := st.tasks ++ [(st.nextId, c)], nextId := st.nextId + 1 }, Except.ok bs.length, ?_⟩
    simp only [hfc]

/-- Under the invariant, `write` always returns: it never panics on the
cache assertion and never spins on an empty yet full pool. -/
theorem write_total {st : WriterState} {accepted : List Buffer} (bs : Buffer)
    (hInv : Inv st accepted) : ∃ st' r, write st bs = some (st', r) := by
  by_cases hcap : st.tasks.length < st.limit
  · obtain ⟨st', r, h⟩ := writeReady_total (st.tasks.length + 1) bs hcap
    exact ⟨st', r, h⟩
  · have hne : st.tasks ≠ [] := by
      intro hnil
      rw [hnil] at hcap
      exact hcap (Nat.lt_of_lt_of_le Nat.zero_lt_one hInv.limit_pos)
    rcases hp : poolNext st with _ | ⟨st1, res⟩
    · exact absurd (poolNext_none hp) hne
    rcases res with ⟨i, p, e⟩ | i
    · refine ⟨{ st1 with tasks := (i, p) :: st1.tasks }, Except.error e, ?_⟩
      show writeAux (st.tasks.length + 1 + 1) st bs = _
      rw [writeAux, if_neg hcap, hp]
    · obtain ⟨hI2, hlen, hl1, hc1, hn1, p0, htr1⟩ := popOk_inv hInv hp
      have htle := hInv.tasks_le
      have hcap2 : st1.tasks.length < st1.limit := by
        rw [hl1]
        omega
      obtain ⟨st', r, h2⟩ := @writeReady_total st.tasks.length { st1 with block_ids := st1.block_ids ++ [i] } bs hcap2
      refine ⟨st', r, ?_⟩
      show writeAux (st.tasks.length + 1 + 1) st bs = _
      rw [writeAux, if_neg hcap, hp]
      exact h2

/-- Extending the trace and replacing the oracle leaves the session
invariant intact. -/
theorem Inv_env {st : WriterState} {accepted : List Buffer} (hInv : Inv st accepted)
    (extra : List Event) (fl : List (Option Nat)) :
    Inv { st with trace := st.trace ++ extra, flips := fl } accepted := by
  refine ⟨hInv.limit_pos, hInv.tasks_le, hInv.ids_range, hInv.store_ids, hInv.chunks, ?_⟩
  show st.store.length ≤ (st.trace ++ extra).countP isWB
  rw [List.countP_append]
  have := hInv.store_wb
  omega

/-- A failed pop re-enqueued at the front restores the queue exactly, so
the invariant is preserved and the writer state is unchanged except for
the recorded `write_block` attempt and the consumed oracle entry. -/
theorem popErr_inv {st st' : WriterState} {i : Uuid} {p : Buffer} {e : Nat}
    {accepted : List Buffer}
    (hInv : Inv st accepted) (h : poolNext st = some (st', Except.error (i, p, e))) :
    Inv { st' with tasks := (i, p) :: st'.tasks } accepted ∧
    ((i, p) :: st'.tasks : List (Uuid × Buffer)) = st.tasks ∧
    st'.cache = st.cache ∧ st'.limit = st.limit ∧ st'.nextId = st.nextId ∧
    st'.block_ids = st.block_ids ∧ st'.store = st.store ∧
    st'.trace = st.trace ++ [Event.write_block i p.length p] ∧
    st.flips = some e :: st'.flips := by
  obtain ⟨i0, p0, rest, hts, hts', hc, hl, hn, hb, htr, hres⟩ := poolNext_spec h
  rcases hres with ⟨habs, -⟩ | ⟨e0, heq, hstore, hfl⟩
  · exact Except.noConfusion habs
  · have h1 : (i0, p0, e0) = (i, p, e) := by
      injection heq with hx
      exact hx.symm
    have hi0 : i0 = i := congrArg Prod.fst h1
    have hp0 : p0 = p := congrArg (fun q => q.2.1) h1
    have he0 : e0 = e := congrArg (fun q => q.2.2) h1
    subst hi0
    subst hp0
    subst he0
    have htasks : (st'.tasks : List (Uuid × Buffer)) = rest := hts'
    refine ⟨⟨?_, ?_, ?_, ?_, ?_, ?_⟩, ?_, hc, hl, hn, hb, hstore, htr, hfl⟩
    · show 1 ≤ st'.limit
      rw [hl]
      exact hInv.limit_pos
    · show ((i0, p0) :: st'.tasks).length ≤ st'.limit
      rw [htasks, hl, ← hts]
      exact hInv.tasks_le
    · show st'.block_ids ++ ((i0, p0) :: st'.tasks).map Prod.fst = List.range st'.nextId
      rw [htasks, hb, hn, ← hInv.ids_range, hts]
    · show st'.store.map Prod.fst = st'.block_ids
      rw [hstore, hb]
      exact hInv.store_ids
    · show st'.store.map Prod.snd ++ ((i0, p0) :: st'.tasks).map Prod.snd ++
          cacheList st'.cache = accepted
      rw [htasks, hstore, hc, ← hInv.chunks, hts]
    · show st'.store.length ≤ st'.trace.countP isWB
      rw [hstore, htr]
      have := hInv.store_wb
      simp [List.countP_append]
      omega
    · rw [htasks, hts]

/-- The cache-draining step preserves the invariant, touches neither the
committed list nor the backend, empties the cache whenever the resulting
pool is empty, and does not increase the number of chunks still to
upload. -/
theorem drainCache_sound {st : WriterState} {accepted : List Buffer} (hInv : Inv st accepted) :
    Inv (drainCache st) accepted ∧ (drainCache st).limit = st.limit ∧
    (drainCache st).block_ids = st.block_ids ∧ (drainCache st).trace = st.trace ∧
    (drainCache st).store = st.store ∧ (drainCache st).flips = st.flips ∧
    ((drainCache st).tasks = [] → (drainCache st).cache = none) ∧
    (drainCache st).tasks.length + (cacheList (drainCache st).cache).length ≤
      st.tasks.length + (cacheList st.cache).length := by
  rw [drainCache]
  by_cases hcap : st.tasks.length < st.limit
  · rw [if_pos hcap]
    rcases hcache : st.cache with _ | c
    · rw [hcache]
      exact ⟨hInv, rfl, rfl, rfl, rfl, rfl, fun _ => rfl, Nat.le_refl _⟩
    · refine ⟨⟨hInv.limit_pos, ?_, ?_, hInv.store_ids, ?_, hInv.store_wb⟩,
        rfl, rfl, rfl, rfl, rfl, fun _ => rfl, ?_⟩
      · show (st.tasks ++ [(st.nextId, c)]).length ≤ st.limit
        rw [List.length_append]
        simpa using hcap
      · show st.block_ids ++ (st.tasks ++ [(st.nextId, c)]).map Prod.fst =
          List.range (st.nextId + 1)
        rw [List.map_append, List.range_succ, ← hInv.ids_range]
        simp [List.append_assoc]
      · show st.store.map Prod.snd ++ (st.tasks ++ [(st.nextId, c)]).map Prod.snd ++
            cacheList none = accepted
        have hch := hInv.chunks
        rw [hcache] at hch
        rw [List.map_append]
        simp only [cacheList] at hch ⊢
        rw [← hch]
        simp [List.append_assoc]
      · show (st.tasks ++ [(st.nextId, c)]).length + (cacheList none).length ≤
            st.tasks.length + (cacheList (some c)).length
        simp [cacheList]
  · rw [if_neg hcap]
    refine ⟨hInv, rfl, rfl, rfl, rfl, rfl, ?_, Nat.le_refl _⟩
    intro ht
    exfalso
    rw [ht] at hcap
    simp at hcap
    have := hInv.limit_pos
    omega

/-- Soundness of the close drain loop under the invariant: it only makes
`write_block` calls followed by at most one `complete_block` call, never a
`write_once`; on success the pool and the cache are empty and the last
event is `complete_block` with the final committed list; on failure the
failing backend call is the last event, and a failing `complete_block`
implies the pool and the cache were already drained. -/
theorem closeLoopAux_sound {fuel : Nat} {st st' : WriterState} {accepted : List Buffer}
    {r : Except Nat Unit}
    (hInv : Inv st accepted) (h : closeLoopAux fuel st = some (st', r)) :
    st'.limit = st.limit ∧ Inv st' accepted ∧
    (∃ ext, st'.block_ids = st.block_ids ++ ext) ∧
    (∃ tr, st'.trace = st.trace ++ tr ∧ (∀ ev ∈ tr, isWO ev = false) ∧
      ((r = Except.ok () ∧ st'.tasks = [] ∧ st'.cache = none ∧
         ∃ tr1, tr = tr1 ++ [Event.complete_block st'.block_ids] ∧
           ∀ ev ∈ tr1, isWB ev = true) ∨
       (∃ e, r = Except.error e ∧
         ((∃ tr1 i n b, tr = tr1 ++ [Event.write_block i n b] ∧ ∀ ev ∈ tr1, isWB ev = true) ∨
          (∃ tr1, tr = tr1 ++ [Event.complete_block st'.block_ids] ∧
            (∀ ev ∈ tr1, isWB ev = true) ∧ st'.tasks = [] ∧ st'.cache = none))))) := by
  induction fuel generalizing st with
  | zero => simp [closeLoopAux] at h
  | succ fuel ih =>
    obtain ⟨hdInv, hdl, hdb, hdtr, hds, hdf, hdempty, hdm⟩ := drainCache_sound hInv
    simp only [closeLoopAux] at h
    split at h
    · rename_i hp
      have hts1 : (drainCache st).tasks = [] := poolNext_none hp
      have hcache1 : (drainCache st).cache = none := hdempty hts1
      split at h
      · rename_i hfl
        simp only [Option.some.injEq, Prod.mk.injEq] at h
        obtain ⟨hst, hr⟩ := h
        subst hst
        subst hr
        refine ⟨hdl, ?_, ⟨[], by simpa using hdb⟩,
          ⟨[Event.complete_block (drainCache st).block_ids], ?_, by simp [isWO], ?_⟩⟩
        · have := Inv_env hdInv [Event.complete_block (drainCache st).block_ids]
            (takeFlip (drainCache st).flips).2
          exact this
        · show (drainCache st).trace ++ [Event.complete_block (drainCache st).block_ids] =
            st.trace ++ [Event.complete_block (drainCache st).block_ids]
          rw [hdtr]
        · exact Or.inl ⟨rfl, hts1, hcache1, [], by simp [hdb], by simp⟩
      · rename_i e hfl
        simp only [Option.some.injEq, Prod.mk.injEq] at h
        obtain ⟨hst, hr⟩ := h
        subst hst
        subst hr
        refine ⟨hdl, ?_, ⟨[], by simpa using hdb⟩,
          ⟨[Event.complete_block (drainCache st).block_ids], ?_, by simp [isWO], ?_⟩⟩
        · exact Inv_env hdInv [Event.complete_block (drainCache st).block_ids]
            (takeFlip (drainCache st).flips).2
        · show (drainCache st).trace ++ [Event.complete_block (drainCache st).block_ids] =
            st.trace ++ [Event.complete_block (drainCache st).block_ids]
          rw [hdtr]
        · exact Or.inr ⟨e, rfl, Or.inr ⟨[], by simp [hdb], by simp, hts1, hcache1⟩⟩
    · rename_i st2 i hp
      obtain ⟨hI3, hlen3, hl3, hc3, hn3, p0, htr3⟩ := popOk_inv hdInv hp
      obtain ⟨l1, l2, ⟨ext, lext⟩, ⟨tr', ltr, lwo, lshape⟩⟩ := ih hI3 h
      have hbl3 : ({ st2 with block_ids := st2.block_ids ++ [i] } : WriterState).block_ids =
          st.block_ids ++ [i] := by
        show st2.block_ids ++ [i] = st.block_ids ++ [i]
        have : st2.block_ids = st.block_ids := by
          have := (poolNext_spec hp).choose_spec.choose_spec.choose_spec
          exact this.2.2.2.2.2.1.trans (by rw [hdb])
        rw [this]
      refine ⟨?_, l2, ⟨[i] ++ ext, ?_⟩,
        ⟨Event.write_block i p0.length p0 :: tr', ?_, ?_, ?_⟩⟩
      · rw [l1]
        show st2.limit = st.limit
        rw [hl3, hdl]
      · rw [lext, hbl3, List.append_assoc]
      · rw [ltr]
        show ({ st2 with block_ids := st2.block_ids ++ [i] } : WriterState).trace ++ tr' = _
        have : ({ st2 with block_ids := st2.block_ids ++ [i] } : WriterState).trace =
            st.trace ++ [Event.write_block i p0.length p0] := by
          show st2.trace = _
          rw [htr3, hdtr]
        rw [this, List.append_assoc]
        rfl
      · intro ev hev
        rcases List.mem_cons.mp hev with hev1 | hev2
        · rw [hev1]
          rfl
        · exact lwo ev hev2
      · rcases lshape with ⟨hr, hte, hce, tr1, htr1, hwb1⟩ | ⟨e, hr, hsh⟩
        · refine Or.inl ⟨hr, hte, hce, Event.write_block i p0.length p0 :: tr1, ?_, ?_⟩
          · rw [htr1]
            rfl
          · intro ev hev
            rcases List.mem_cons.mp hev with hev1 | hev2
            · rw [hev1]
              rfl
            · exact hwb1 ev hev2
        · refine Or.inr ⟨e, hr, ?_⟩
          rcases hsh with ⟨tr1, i1, n1, b1, htr1, hwb1⟩ | ⟨tr1, htr1, hwb1, hte, hce⟩
          · refine Or.inl ⟨Event.write_block i p0.length p0 :: tr1, i1, n1, b1, ?_, ?_⟩
            · rw [htr1]
              rfl
            · intro ev hev
              rcases List.mem_cons.mp hev with hev1 | hev2
              · rw [hev1]
                rfl
              · exact hwb1 ev hev2
          · refine Or.inr ⟨Event.write_block i p0.length p0 :: tr1, ?_, ?_, hte, hce⟩
            · rw [htr1]
              rfl
            · intro ev hev
              rcases List.mem_cons.mp hev with hev1 | hev2
              · rw [hev1]
                rfl
              · exact hwb1 ev hev2
    · rename_i st2 i p e hp
      simp only [Option.some.injEq, Prod.mk.injEq] at h
      obtain ⟨hst, hr⟩ := h
      subst hst
      subst hr
      obtain ⟨hEInv, hEts, hEc, hEl, hEn, hEb, hEs, hEtr, hEfl⟩ := popErr_inv hdInv hp
      refine ⟨?_, hEInv, ⟨[], ?_⟩,
        ⟨[Event.write_block i p.length p], ?_, by simp [isWO], ?_⟩⟩
      · show st2.limit = st.limit
        rw [hEl, hdl]
      · show st2.block_ids = st.block_ids ++ []
        rw [hEb, hdb, List.append_nil]
      · show st2.trace = st.trace ++ [Event.write_block i p.length p]
        rw [hEtr, hdtr]
      · exact Or.inr ⟨e, rfl, Or.inl ⟨[], i, p.length, p, by simp, by simp⟩⟩

/-- Under the invariant, the close drain loop returns once the fuel
exceeds the number of chunks still queued or cached: it cannot spin. -/
theorem closeLoopAux_total (fuel : Nat) {st : WriterState} {accepted : List Buffer}
    (hInv : Inv st accepted)
    (hm : st.tasks.length + (cacheList st.cache).length < fuel) :
    (closeLoopAux fuel st).isSome = true := by
  induction fuel generalizing st with
  | zero => omega
  | succ fuel ih =>
    obtain ⟨hdInv, hdl, hdb, hdtr, hds, hdf, hdempty, hdm⟩ := drainCache_sound hInv
    simp only [closeLoopAux]
    split
    · cases hfl : (takeFlip (drainCache st).flips).1 <;> rfl
    · rename_i st2 i hp
      obtain ⟨hI3, hlen3, hl3, hc3, hn3, p0, htr3⟩ := popOk_inv hdInv hp
      apply ih hI3
      show st2.tasks.length + (cacheList st2.cache).length < fuel
      have hcl : (cacheList st2.cache).length = (cacheList (drainCache st).cache).length := by
        rw [hc3]
      omega
    · rfl

/-- A close on a state that is not on the fast path runs the drain
loop. -/
theorem close_nonfast {st : WriterState} (hnf : ¬(st.tasks = [] ∧ st.block_ids = [])) :
    close st = closeLoop st := by
  rw [close, if_neg hnf]

/-- Once two or more chunks have been accepted, the fast-path condition of
`close` is false: some block has been queued or committed. -/
theorem notFast_of_two {st : WriterState} {accepted : List Buffer}
    (hInv : Inv st accepted) (hn : 2 ≤ accepted.length) :
    ¬(st.tasks = [] ∧ st.block_ids = []) := by
  rintro ⟨ht, hb⟩
  have hstore : st.store = [] := by
    have hsi := hInv.store_ids
    rw [hb] at hsi
    exact List.map_eq_nil_iff.mp hsi
  have hch := hInv.chunks
  rw [ht, hstore] at hch
  simp at hch
  have hlen := congrArg List.length hch
  rcases hc2 : st.cache with _ | c <;> rw [hc2] at hlen <;> simp [cacheList] at hlen <;> omega

/-- Under the invariant, `close` always returns. -/
theorem close_total {st : WriterState} {accepted : List Buffer} (hInv : Inv st accepted) :
    ∃ res, close st = some res := by
  by_cases hf : st.tasks = [] ∧ st.block_ids = []
  · rw [close, if_pos hf]
    rcases st.flips with _ | ⟨f, fr⟩
    · exact ⟨_, rfl⟩
    · rcases f with _ | e
      · exact ⟨_, rfl⟩
      · exact ⟨_, rfl⟩
  · rw [close_nonfast hf]
    have := closeLoopAux_total (st.tasks.length + 2) hInv (by
      rcases hc2 : st.cache with _ | c <;> simp [cacheList])
    obtain ⟨res, hres⟩ := Option.isSome_iff_exists.mp this
    exact ⟨res, hres⟩

/-- The fast path of `close` issues exactly one `write_once` carrying the
cached bytes (or the empty payload), clears the cache only on success, and
on failure leaves the cache and the committed list untouched while passing
the backend error through. -/
theorem close_fast_sound {st st' : WriterState} {accepted : List Buffer} {r : Except Nat Unit}
    (hInv : Inv st accepted) (hf : st.tasks = [] ∧ st.block_ids = [])
    (h : close st = some (st', r)) :
    st'.trace = st.trace ++
      [Event.write_once (st.cache.getD []).length (st.cache.getD [])] ∧
    st'.tasks = st.tasks ∧ st'.block_ids = st.block_ids ∧ st'.store = st.store ∧
    st'.limit = st.limit ∧
    ((r = Except.ok () ∧ st'.cache = none ∧ Inv st' []) ∨
     (∃ e, r = Except.error e ∧ st'.cache = st.cache ∧ Inv st' accepted ∧
       st.flips = some e :: st'.flips)) := by
  rw [close, if_pos hf] at h
  have hstore : st.store = [] := by
    have hsi := hInv.store_ids
    rw [hf.2] at hsi
    exact List.map_eq_nil_iff.mp hsi
  rcases hfl : st.flips with _ | ⟨f, fr⟩
  · rw [hfl] at h
    simp only [takeFlip, Option.some.injEq, Prod.mk.injEq] at h
    obtain ⟨hst, hr⟩ := h
    subst hst
    subst hr
    refine ⟨rfl, rfl, rfl, rfl, rfl, Or.inl ⟨rfl, rfl, ?_⟩⟩
    refine ⟨hInv.limit_pos, hInv.tasks_le, hInv.ids_range, hInv.store_ids, ?_, ?_⟩
    · show st.store.map Prod.snd ++ st.tasks.map Prod.snd ++ cacheList none = []
      rw [hstore, hf.1]
      rfl
    · show st.store.length ≤ (st.trace ++ _).countP isWB
      rw [List.countP_append]
      have := hInv.store_wb
      omega
  · rw [hfl] at h
    rcases f with _ | e
    · simp only [takeFlip, Option.some.injEq, Prod.mk.injEq] at h
      obtain ⟨hst, hr⟩ := h
      subst hst
      subst hr
      refine ⟨rfl, rfl, rfl, rfl, rfl, Or.inl ⟨rfl, rfl, ?_⟩⟩
      refine ⟨hInv.limit_pos, hInv.tasks_le, hInv.ids_range, hInv.store_ids, ?_, ?_⟩
      · show st.store.map Prod.snd ++ st.tasks.map Prod.snd ++ cacheList none = []
        rw [hstore, hf.1]
        rfl
      · show st.store.length ≤ (st.trace ++ _).countP isWB
        rw [List.countP_append]
        have := hInv.store_wb
        omega
    · simp only [takeFlip, Option.some.injEq, Prod.mk.injEq] at h
      obtain ⟨hst, hr⟩ := h
      subst hst
      subst hr
      refine ⟨rfl, rfl, rfl, rfl, rfl, Or.inr ⟨e, rfl, rfl, ?_, ?_⟩⟩
      · exact Inv_env hInv [Event.write_once (st.cache.getD []).length (st.cache.getD [])] fr
      · rfl

/-- A fresh writer satisfies the invariant with an empty accepted
ledger. -/
theorem newWriter_inv (concurrent : Nat) (flips : List (Option Nat)) :
    Inv (newWriter concurrent flips) [] := by
  refine ⟨Nat.le_max_left 1 concurrent, ?_, ?_, ?_, ?_, ?_⟩ <;>
    simp [newWriter, cacheList]

/-- The state after `abort`: one `abort_block` call carrying the committed
list is recorded and nothing else changes. -/
theorem abort_fst (st : WriterState) :
    (abort st).1 = { st with flips := (takeFlip st.flips).2, trace := st.trace ++ [Event.abort_block st.block_ids] } := by
  unfold abort
  rcases st.flips with _ | ⟨f, fr⟩
  · rfl
  · rcases f with _ | e <;> rfl

/-- Every public call preserves the invariant for some accepted ledger and
keeps the pool capacity. -/
theorem applyOp_sound {st st' : WriterState} {accepted : List Buffer} {op : Op}
    (hInv : Inv st accepted) (h : applyOp st op = some st') :
    ∃ acc', Inv st' acc' ∧ st'.limit = st.limit := by
  cases op with
  | write bs =>
    rcases hw : write st bs with _ | ⟨st1, r⟩
    · rw [applyOp, hw] at h
      simp at h
    · rw [applyOp, hw] at h
      simp only [Option.map_some'] at h
      have hst : st1 = st' := by
        injection h
      subst hst
      obtain ⟨hl, htr, hres⟩ := write_sound hInv hw
      rcases hres with ⟨_, hI, _⟩ | ⟨e, _, hI, _⟩
      · exact ⟨accepted ++ [bs], hI, hl⟩
      · exact ⟨accepted, hI, hl⟩
  | close =>
    rcases hcl : close st with _ | ⟨st1, r⟩
    · rw [applyOp, hcl] at h
      simp at h
    · rw [applyOp, hcl] at h
      simp only [Option.map_some'] at h
      have hst : st1 = st' := by
        injection h
      subst hst
      by_cases hf : st.tasks = [] ∧ st.block_ids = []
      · obtain ⟨_, _, _, _, hl, hres⟩ := close_fast_sound hInv hf hcl
        rcases hres with ⟨_, _, hI⟩ | ⟨e, _, _, hI, _⟩
        · exact ⟨[], hI, hl⟩
        · exact ⟨accepted, hI, hl⟩
      · rw [close_nonfast hf] at hcl
        have hcl2 : closeLoopAux (st.tasks.length + 2) st = some (st1, r) := hcl
        obtain ⟨hl, hI, -, -⟩ := closeLoopAux_sound hInv hcl2
        exact ⟨accepted, hI, hl⟩
  | abort =>
    rw [applyOp] at h
    have hst : (abort st).1 = st' := by
      injection h
    subst hst
    rw [abort_fst]
    exact ⟨accepted, Inv_env hInv [Event.abort_block st.block_ids] (takeFlip st.flips).2, rfl⟩

/-- Under the invariant, every public call returns: no assertion fires and
no call gets stuck. -/
theorem applyOp_total {st : WriterState} {accepted : List Buffer} (op : Op)
    (hInv : Inv st accepted) : applyOp st op ≠ none := by
  cases op with
  | write bs =>
    obtain ⟨st', r, h⟩ := write_total bs hInv
    simp [applyOp, h]
  | close =>
    obtain ⟨res, h⟩ := close_total hInv
    simp [applyOp, h]
  | abort => simp [applyOp]

/-- Any sequence of public calls starting from an invariant state reaches
an invariant state with the same pool capacity. -/
theorem runOps_sound : ∀ (ops : List Op) (st st' : WriterState) (accepted : List Buffer),
    Inv st accepted → runOps st ops = some st' →
    ∃ acc', Inv st' acc' ∧ st'.limit = st.limit := by
  intro ops
  induction ops with
  | nil =>
    intro st st' accepted hInv h
    simp only [runOps, Option.some.injEq] at h
    subst h
    exact ⟨accepted, hInv, rfl⟩
  | cons op ops ih =>
    intro st st' accepted hInv h
    rw [runOps] at h
    rcases hap : applyOp st op with _ | st1
    · rw [hap] at h
      simp at h
    · rw [hap] at h
      obtain ⟨acc1, hI1, hl1⟩ := applyOp_sound hInv hap
      obtain ⟨acc', hI', hl'⟩ := ih st1 st' acc1 hI1 h
      exact ⟨acc', hI', hl'.trans hl1⟩

/-- A `write_block` event is not a `write_once` event. -/
theorem isWO_false_of_isWB {ev : Event} (h : isWB ev = true) : isWO ev = false := by
  cases ev <;> simp [isWB, isWO] at h ⊢

/-- A `write_block` event is not a `complete_block` event. -/
theorem isCB_false_of_isWB {ev : Event} (h : isWB ev = true) : isCB ev = false := by
  cases ev <;> simp [isWB, isCB] at h ⊢

/-- Caller-driven retry of one `write` call: when it ends in acceptance,
the chunk is cached, the ledger grows by exactly that chunk, and only
`write_block` calls were made along the way. -/
theorem driveWrite_sound {fuel : Nat} {st st' : WriterState} {accepted : List Buffer}
    {bs : Buffer} (hInv : Inv st accepted) (h : driveWrite fuel st bs = some st') :
    Inv st' (accepted ++ [bs]) ∧ st'.limit = st.limit ∧ st'.cache = some bs ∧
    ∃ tr, st'.trace = st.trace ++ tr ∧ ∀ ev ∈ tr, isWB ev = true := by
  induction fuel generalizing st with
  | zero => simp [driveWrite] at h
  | succ fuel ih =>
    rw [driveWrite] at h
    rcases hw : write st bs with _ | ⟨st1, e | n⟩
    · rw [hw] at h
      simp at h
    · rw [hw] at h
      obtain ⟨hl, ⟨tr0, htr0, hwb0⟩, hres⟩ := write_sound hInv hw
      rcases hres with ⟨habs, -, -⟩ | ⟨e0, -, hI1, -, -, -, -, -, -⟩
      · exact Except.noConfusion habs
      · obtain ⟨hI', hl', hc', tr', htr', hwb'⟩ := ih hI1 h
        refine ⟨hI', hl'.trans hl, hc', tr0 ++ tr', ?_, ?_⟩
        · rw [htr', htr0, List.append_assoc]
        · intro ev hev
          rcases List.mem_append.mp hev with h1 | h2
          · exact hwb0 ev h1
          · exact hwb' ev h2
    · rw [hw] at h
      have hst : st1 = st' := by
        injection h
      subst hst
      obtain ⟨hl, ⟨tr0, htr0, hwb0⟩, hres⟩ := write_sound hInv hw
      rcases hres with ⟨-, hI1, hc1⟩ | ⟨e0, habs, -⟩
      · exact ⟨hI1, hl, hc1, tr0, htr0, hwb0⟩
      · exact Except.noConfusion habs

/-- Submitting a list of chunks with caller-driven retry: the ledger ends
as the initial ledger followed by exactly those chunks, and only
`write_block` calls are made. -/
theorem driveWrites_sound : ∀ (bss : List Buffer) (fuel : Nat) (st st' : WriterState)
    (accepted : List Buffer), Inv st accepted → driveWrites fuel st bss = some st' →
    Inv st' (accepted ++ bss) ∧ st'.limit = st.limit ∧
    ∃ tr, st'.trace = st.trace ++ tr ∧ ∀ ev ∈ tr, isWB ev = true := by
  intro bss
  induction bss with
  | nil =>
    intro fuel st st' accepted hInv h
    simp only [driveWrites, Option.some.injEq] at h
    subst h
    exact ⟨by simpa using hInv, rfl, [], by simp, by simp⟩
  | cons bs rest ih =>
    intro fuel st st' accepted hInv h
    rw [driveWrites] at h
    rcases hdw : driveWrite fuel st bs with _ | st1
    · rw [hdw] at h
      simp at h
    · rw [hdw] at h
      obtain ⟨hI1, hl1, hc1, tr0, htr0, hwb0⟩ := driveWrite_sound hInv hdw
      obtain ⟨hI', hl', tr', htr', hwb'⟩ := ih fuel st1 st' (accepted ++ [bs]) hI1 h
      refine ⟨by simpa [List.append_assoc] using hI', hl'.trans hl1, tr0 ++ tr', ?_, ?_⟩
      · rw [htr', htr0, List.append_assoc]
      · intro ev hev
        rcases List.mem_append.mp hev with h1 | h2
        · exact hwb0 ev h1
        · exact hwb' ev h2

/-- Caller-driven retry of `close` on a session with at least two accepted
chunks: the final state has drained the pool and the cache, the invariant
holds, no `write_once` is ever issued, and the trace ends with a
`complete_block` carrying the final committed list. -/
theorem driveClose_sound {fuel : Nat} {st st' : WriterState} {accepted : List Buffer}
    (hInv : Inv st accepted) (hn : 2 ≤ accepted.length)
    (h : driveClose fuel st = some st') :
    Inv st' accepted ∧ st'.limit = st.limit ∧ st'.tasks = [] ∧ st'.cache = none ∧
    ∃ tr, st'.trace = st.trace ++ tr ∧ (∀ ev ∈ tr, isWO ev = false) ∧
      ∃ tr1, tr = tr1 ++ [Event.complete_block st'.block_ids] := by
  induction fuel generalizing st with
  | zero => simp [driveClose] at h
  | succ fuel ih =>
    have hnf := notFast_of_two hInv hn
    rw [driveClose] at h
    rcases hcl : close st with _ | ⟨st1, e | u⟩
    · rw [hcl] at h
      simp at h
    · rw [hcl] at h
      rw [close_nonfast hnf] at hcl
      have hcl2 : closeLoopAux (st.tasks.length + 2) st = some (st1, Except.error e) := hcl
      obtain ⟨l1, l2, -, ⟨tr0, htr0, lwo0, -⟩⟩ := closeLoopAux_sound hInv hcl2
      obtain ⟨hI', hl', hte', hce', tr', htr', hwo', tr1, htr1⟩ := ih l2 h
      refine ⟨hI', hl'.trans l1, hte', hce', tr0 ++ tr', ?_, ?_, tr0 ++ tr1, ?_⟩
      · rw [htr', htr0, List.append_assoc]
      · intro ev hev
        rcases List.mem_append.mp hev with h1 | h2
        · exact lwo0 ev h1
        · exact hwo' ev h2
      · rw [htr1, List.append_assoc]
    · rw [hcl] at h
      have hst : st1 = st' := by
        injection h
      subst hst
      rw [close_nonfast hnf] at hcl
      have hcl2 : closeLoopAux (st.tasks.length + 2) st = some (st1, Except.ok u) := hcl
      obtain ⟨l1, l2, -, ⟨tr0, htr0, lwo0, lshape⟩⟩ := closeLoopAux_sound hInv hcl2
      rcases lshape with ⟨-, hte, hce, tr1, htr1, -⟩ | ⟨e, habs, -⟩
      · exact ⟨l2, l1, hte, hce, tr0, htr0, lwo0, tr1, htr1⟩
      · exact Except.noConfusion habs

/-- A successful session of at least two accepted chunks followed by a
successful (retried) close: the final state is fully drained, the
committed list is the identifiers in generation order, the backend store
maps them to the written chunks in order, no `write_once` was ever issued,
and the trace ends with the `complete_block` call. -/
theorem runSession_sound {fuel concurrent : Nat} {flips : List (Option Nat)}
    {bss : List Buffer} {st : WriterState}
    (h : runSession fuel concurrent flips bss = some st) (hn : 2 ≤ bss.length) :
    Inv st bss ∧ st.tasks = [] ∧ st.cache = none ∧
    st.block_ids = List.range bss.length ∧
    st.store.map Prod.fst = List.range bss.length ∧
    st.store.map Prod.snd = bss ∧
    st.nextId = bss.length ∧
    List.countP isWO st.trace = 0 ∧
    st.trace.getLast? = some (Event.complete_block (List.range bss.length)) := by
  rw [runSession] at h
  rcases hdw : driveWrites fuel (newWriter concurrent flips) bss with _ | st1
  · rw [hdw] at h
    simp at h
  · rw [hdw] at h
    obtain ⟨hI1, hl1, tr0, htr0, hwb0⟩ :=
      driveWrites_sound bss fuel _ st1 [] (newWriter_inv concurrent flips) hdw
    have hI1' : Inv st1 bss := by simpa using hI1
    obtain ⟨hI, hl, hte, hce, tr1, htr1, hwo1, tr2, htr2⟩ := driveClose_sound hI1' hn h
    have hbi : st.block_ids = List.range st.nextId := by
      have hx := hI.ids_range
      rw [hte] at hx
      simpa using hx
    have hsnd : st.store.map Prod.snd = bss := by
      have hx := hI.chunks
      rw [hte, hce] at hx
      simpa [cacheList] using hx
    have hfst : st.store.map Prod.fst = st.block_ids := hI.store_ids
    have hnid : st.nextId = bss.length := by
      have h1 : st.store.length = bss.length := by
        have hx := congrArg List.length hsnd
        simpa using hx
      have h2 : st.store.length = st.block_ids.length := by
        have hx := congrArg List.length hfst
        simpa using hx
      have h3 : st.block_ids.length = st.nextId := by
        have hx := congrArg List.length hbi
        simpa using hx
      rw [← h3, ← h2, h1]
    have htrace : st.trace = tr0 ++ tr1 := by
      rw [htr1, htr0]
      simp [newWriter]
    refine ⟨hI, hte, hce, by rw [hbi, hnid], by rw [hfst, hbi, hnid], hsnd, hnid, ?_, ?_⟩
    · rw [htrace, List.countP_append]
      have hz0 : List.countP isWO tr0 = 0 := by
        rw [List.countP_eq_zero]
        intro ev hev
        rw [isWO_false_of_isWB (hwb0 ev hev)]
        simp
      have hz1 : List.countP isWO tr1 = 0 := by
        rw [List.countP_eq_zero]
        intro ev hev
        rw [hwo1 ev hev]
        simp
      omega
    · rw [htr1, htr2, ← List.append_assoc, List.getLast?_concat, hbi, hnid]

/-- C1: for every sequence of writes submitted with concurrency limit
greater than one, where any subset of block uploads fail and each failed
`write`/`close` call is retried by the caller until it succeeds, the
identifier list finally passed to `complete_block` equals the block
identifiers in original caller write order (the identifiers in generation
order), and the concatenation of the committed block payloads equals the
concatenation of all chunks ever accepted by `write`.  Sessions of fewer
than two chunks take the `write_once` fast path and make no
`complete_block` call at all. -/
theorem C1_order_preserved (fuel concurrent : Nat) (flips : List (Option Nat))
    (bss : List Buffer) (st : WriterState)
    (hrun : runSession fuel concurrent flips bss = some st)
    (_hc : 1 < concurrent) (hn : 2 ≤ bss.length) :
    st.trace.getLast? = some (Event.complete_block (List.range bss.length)) ∧
    st.block_ids = List.range bss.length ∧
    st.store.map Prod.fst = List.range bss.length ∧
    st.store.map Prod.snd = bss ∧
    (st.store.map Prod.snd).flatten = bss.flatten := by
  obtain ⟨hI, hte, hce, hbi, hfst, hsnd, hnid, hwo, hlast⟩ := runSession_sound hrun hn
  exact ⟨hlast, hbi, hfst, hsnd, by rw [hsnd]⟩

/-- C8: because `write` always caches the incoming chunk and the
single-shot decision is made only at close time, every session with two or
more accepted writes performs at least one `write_block`, never calls
`write_once`, and finishes through `complete_block`. -/
theorem C8_two_writes_use_blocks (fuel concurrent : Nat) (flips : List (Option Nat))
    (bss : List Buffer) (st : WriterState)
    (hrun : runSession fuel concurrent flips bss = some st) (hn : 2 ≤ bss.length) :
    List.countP isWO st.trace = 0 ∧ 1 ≤ List.countP isWB st.trace ∧
    st.trace.getLast? = some (Event.complete_block (List.range bss.length)) := by
  obtain ⟨hI, hte, hce, hbi, hfst, hsnd, hnid, hwo, hlast⟩ := runSession_sound hrun hn
  refine ⟨hwo, ?_, hlast⟩
  have hwb := hI.store_wb
  have hlen : st.store.length = bss.length := by
    have h1 := congrArg List.length hsnd
    simpa using h1
  omega

/-- C3: a failed block upload is re-enqueued at the front of the pool with
its original identifier and payload (the queue is restored exactly and no
fresh identifier is generated), the failed chunk is never discarded (cache
and backend store are untouched), and under caller-driven retries every
accepted chunk is eventually uploaded exactly once per identifier: the
final store holds pairwise distinct identifiers whose payloads are
exactly the accepted chunks in order. -/
theorem C3_retry_no_duplication_no_loss :
    (∀ (st : WriterState) (accepted : List Buffer) (bs : Buffer) (st' : WriterState) (e : Nat),
       Inv st accepted → write st bs = some (st', Except.error e) →
       st'.tasks = st.tasks ∧ st'.cache = st.cache ∧ st'.nextId = st.nextId ∧
       st'.store = st.store) ∧
    (∀ (fuel concurrent : Nat) (flips : List (Option Nat)) (bss : List Buffer)
       (st : WriterState),
       runSession fuel concurrent flips bss = some st → 2 ≤ bss.length →
       st.store.map Prod.snd = bss ∧ (st.store.map Prod.fst).Nodup) := by
  constructor
  · intro st accepted bs st' e hInv hw
    obtain ⟨hl, htr, hres⟩ := write_sound hInv hw
    rcases hres with ⟨habs, -, -⟩ | ⟨e0, -, -, hts, hc, -, hn, hs, -⟩
    · exact Except.noConfusion habs
    · exact ⟨hts, hc, hn, hs⟩
  · intro fuel concurrent flips bss st hrun hn
    obtain ⟨hI, hte, hce, hbi, hfst, hsnd, hnid, hwo, hlast⟩ := runSession_sound hrun hn
    refine ⟨hsnd, ?_⟩
    rw [hfst]
    exact List.nodup_range bss.length

/-- C4 counterexample: with a configured concurrency of zero, two writes
leave one block upload in flight, exceeding the configured limit. -/
theorem C4_counterexample :
    ((write (newWriter 0 []) [0]).bind fun q => write q.1 [1]).map
        (fun q => q.1.tasks.length) = some 1 ∧ ¬(1 ≤ 0) := by
  constructor
  · rfl
  · decide

/-- C4 amended: for every configured concurrency value, the number of
in-flight block uploads never exceeds `max 1 concurrent`; this equals the
configured value whenever it is at least one, while a configured zero is
clamped to one. -/
theorem C4_amended_capacity_bound (concurrent : Nat) (flips : List (Option Nat))
    (ops : List Op) (st : WriterState)
    (hrun : runOps (newWriter concurrent flips) ops = some st) :
    st.tasks.length ≤ max 1 concurrent ∧
    (1 ≤ concurrent → st.tasks.length ≤ concurrent) := by
  obtain ⟨acc, hI, hl⟩ := runOps_sound ops _ st [] (newWriter_inv concurrent flips) hrun
  have htle := hI.tasks_le
  have hlim : st.limit = max 1 concurrent := hl
  constructor
  · omega
  · intro h1
    have hmax : max 1 concurrent = concurrent := Nat.max_eq_right h1
    omega

/-- C5: `abort` issues exactly one `abort_block` call carrying exactly the
identifiers committed so far, for any writer state (including an empty or
partial committed list, after any number of successful and failed writes),
and changes nothing else of the writer. -/
theorem C5_abort_committed_ids (st : WriterState) :
    (abort st).1.trace = st.trace ++ [Event.abort_block st.block_ids] ∧
    (abort st).1.block_ids = st.block_ids ∧ (abort st).1.cache = st.cache ∧
    (abort st).1.tasks = st.tasks ∧ (abort st).1.store = st.store := by
  rw [abort_fst]
  exact ⟨rfl, rfl, rfl, rfl, rfl⟩

/-- C7: in every state reachable through the public write/close/abort
contract, the pending cache holds at most one chunk, and no public call
can hit the `fill_cache` assertion (modelled by `none`): the
programming-error branch is unreachable. -/
theorem C7_cache_assert_unreachable (concurrent : Nat) (flips : List (Option Nat))
    (ops : List Op) (st : WriterState)
    (hrun : runOps (newWriter concurrent flips) ops = some st) :
    (cacheList st.cache).length ≤ 1 ∧ ∀ op, applyOp st op ≠ none := by
  obtain ⟨acc, hI, -⟩ := runOps_sound ops _ st [] (newWriter_inv concurrent flips) hrun
  refine ⟨?_, fun op => applyOp_total op hI⟩
  rcases st.cache with _ | c <;> simp [cacheList]

/-- C10: `BlockWriter::new` clamps the concurrency to a minimum of one:
the pool capacity is `max 1 concurrent`, hence at least one, and a writer
built with concurrency zero still accepts writes and admits one in-flight
block upload. -/
theorem C10_concurrency_clamped (concurrent : Nat) (flips : List (Option Nat))
    (b1 b2 : Buffer) :
    (newWriter concurrent flips).limit = max 1 concurrent ∧
    1 ≤ (newWriter concurrent flips).limit ∧
    (newWriter 0 flips).limit = 1 ∧
    (∃ st1 st2, write (newWriter 0 flips) b1 = some (st1, Except.ok b1.length) ∧
      write st1 b2 = some (st2, Except.ok b2.length) ∧ st2.tasks.length = 1) := by
  refine ⟨rfl, Nat.le_max_left 1 concurrent, rfl, ?_⟩
  exact ⟨_, _, rfl, rfl, rfl⟩

/-- Draining an empty cache changes nothing. -/
theorem drainCache_cache_none {st : WriterState} (h : st.cache = none) : drainCache st = st := by
  rw [drainCache, h]
  split <;> rfl

/-- Awaiting an empty pool yields nothing. -/
theorem poolNext_empty {st : WriterState} (h : st.tasks = []) : poolNext st = none := by
  rw [poolNext, h]

/-- Closing a fully drained writer with a nonempty committed list issues
exactly one `complete_block` call carrying that list. -/
theorem close_drained {st : WriterState} (hts : st.tasks = []) (hc : st.cache = none)
    (hb : st.block_ids ≠ []) {st' : WriterState} {r : Except Nat Unit}
    (h : close st = some (st', r)) :
    st'.trace = st.trace ++ [Event.complete_block st.block_ids] := by
  have hnf : ¬(st.tasks = [] ∧ st.block_ids = []) := fun hcon => hb hcon.2
  rw [close_nonfast hnf] at h
  have h2 : closeLoopAux (st.tasks.length + 1 + 1) st = some (st', r) := h
  rw [closeLoopAux] at h2
  simp only [drainCache_cache_none hc, poolNext_empty hts] at h2
  rcases hfl : st.flips with _ | ⟨f, fr⟩
  · rw [hfl] at h2
    simp only [takeFlip, Option.some.injEq, Prod.mk.injEq] at h2
    obtain ⟨hst, -⟩ := h2
    subst hst
    rfl
  · rw [hfl] at h2
    rcases f with _ | e0
    · simp only [takeFlip, Option.some.injEq, Prod.mk.injEq] at h2
      obtain ⟨hst, -⟩ := h2
      subst hst
      rfl
    · simp only [takeFlip, Option.some.injEq, Prod.mk.injEq] at h2
      obtain ⟨hst, -⟩ := h2
      subst hst
      rfl

/-- C2: if `write` is called at most once before `close`, the close call
makes exactly one `write_once` backend call whose payload is the bytes of
the single write (or the empty payload when `write` was never called), and
the session makes zero `write_block` and zero `complete_block` calls. -/
theorem C2_single_shot_fast_path (concurrent : Nat) (flips : List (Option Nat)) (bs : Buffer) :
    (∀ (st' : WriterState) (r : Except Nat Unit),
       close (newWriter concurrent flips) = some (st', r) →
       st'.trace = [Event.write_once 0 []] ∧
       st'.trace.countP isWO = 1 ∧ st'.trace.countP isWB = 0 ∧
       st'.trace.countP isCB = 0) ∧
    (∃ st1, write (newWriter concurrent flips) bs = some (st1, Except.ok bs.length) ∧
       st1.trace = [] ∧
       ∀ (st' : WriterState) (r : Except Nat Unit), close st1 = some (st', r) →
         st'.trace = [Event.write_once bs.length bs] ∧
         st'.trace.countP isWO = 1 ∧ st'.trace.countP isWB = 0 ∧
         st'.trace.countP isCB = 0) := by
  have hcap : (newWriter concurrent flips).tasks.length < (newWriter concurrent flips).limit :=
    Nat.lt_of_lt_of_le Nat.zero_lt_one (Nat.le_max_left 1 concurrent)
  constructor
  · intro st' r h
    obtain ⟨htrace, -, -, -, -, -⟩ :=
      close_fast_sound (newWriter_inv concurrent flips) ⟨rfl, rfl⟩ h
    have hbody : ((newWriter concurrent flips).cache.getD []) = ([] : Buffer) := rfl
    rw [hbody] at htrace
    have htr0 : (newWriter concurrent flips).trace = [] := rfl
    rw [htr0] at htrace
    simp only [List.nil_append] at htrace
    refine ⟨htrace, ?_, ?_, ?_⟩ <;> rw [htrace] <;> rfl
  · have hw : write (newWriter concurrent flips) bs =
        some ({ newWriter concurrent flips with cache := some bs }, Except.ok bs.length) := by
      show writeAux (0 + 1 + 1) (newWriter concurrent flips) bs = _
      rw [writeAux, if_pos hcap]
      rfl
    refine ⟨_, hw, rfl, ?_⟩
    intro st' r h
    have hI1 : Inv { newWriter concurrent flips with cache := some bs } [bs] := by
      obtain ⟨-, -, hres⟩ := write_sound (newWriter_inv concurrent flips) hw
      rcases hres with ⟨-, hI, -⟩ | ⟨e0, habs, -⟩
      · simpa using hI
      · exact Except.noConfusion habs
    obtain ⟨htrace, -, -, -, -, -⟩ := close_fast_sound hI1 ⟨rfl, rfl⟩ h
    have hbody : (({ newWriter concurrent flips with cache := some bs } :
        WriterState).cache.getD []) = bs := rfl
    rw [hbody] at htrace
    have htr0 : ({ newWriter concurrent flips with cache := some bs } :
        WriterState).trace = [] := rfl
    rw [htr0] at htrace
    simp only [List.nil_append] at htrace
    refine ⟨htrace, ?_, ?_, ?_⟩ <;> rw [htrace] <;> rfl

/-- A successful pop consumed either an exhausted oracle (which stays
exhausted) or a literal `none` entry. -/
theorem poolNext_ok_flips {st st' : WriterState} {i : Uuid}
    (h : poolNext st = some (st', Except.ok i)) :
    (st.flips = [] ∧ st'.flips = []) ∨ st.flips = none :: st'.flips := by
  rcases hts : st.tasks with _ | ⟨⟨i0, p⟩, rest⟩
  · rw [poolNext, hts] at h
    simp at h
  · rw [poolNext, hts] at h
    rcases hfl : st.flips with _ | ⟨f, fr⟩ <;> rw [hfl] at h
    · simp only [takeFlip, Option.some.injEq, Prod.mk.injEq] at h
      obtain ⟨hst, -⟩ := h
      subst hst
      exact Or.inl ⟨rfl, rfl⟩
    · rcases f with _ | e0
      · simp only [takeFlip, Option.some.injEq, Prod.mk.injEq] at h
        obtain ⟨hst, -⟩ := h
        subst hst
        exact Or.inr rfl
      · simp only [takeFlip, Option.some.injEq, Prod.mk.injEq] at h
        obtain ⟨-, habs⟩ := h
        exact Except.noConfusion habs

/-- Every failure of the close drain loop: the invariant still accounts
for exactly the accepted chunks, the returned error is exactly the oracle
entry of the failing backend call (every earlier call of this loop
succeeded), and the failing call is the last recorded event: a failed
`write_block` leaves the failed block at the front of the queue with its
original identifier and payload, while a failed `complete_block` leaves
the pool and the cache drained with the committed list unchanged. -/
theorem closeLoopAux_err {fuel : Nat} {st st' : WriterState} {accepted : List Buffer}
    {e : Nat} (hInv : Inv st accepted)
    (h : closeLoopAux fuel st = some (st', Except.error e)) :
    Inv st' accepted ∧ st'.limit = st.limit ∧
    (∃ pre, st.flips = pre ++ some e :: st'.flips ∧ ∀ f ∈ pre, f = none) ∧
    ((∃ i b, st'.trace.getLast? = some (Event.write_block i b.length b) ∧
       st'.tasks.head? = some (i, b)) ∨
     (st'.trace.getLast? = some (Event.complete_block st'.block_ids) ∧
       st'.tasks = [] ∧ st'.cache = none)) := by
  induction fuel generalizing st with
  | zero => simp [closeLoopAux] at h
  | succ fuel ih =>
    obtain ⟨hdInv, hdl, hdb, hdtr, hds, hdf, hdempty, hdm⟩ := drainCache_sound hInv
    simp only [closeLoopAux] at h
    split at h
    · rename_i hp
      have hts1 : (drainCache st).tasks = [] := poolNext_none hp
      have hcache1 : (drainCache st).cache = none := hdempty hts1
      split at h
      · rename_i hfl
        simp only [Option.some.injEq, Prod.mk.injEq] at h
        exact Except.noConfusion h.2
      · rename_i e0 hfl
        simp only [Option.some.injEq, Prod.mk.injEq] at h
        obtain ⟨hst, hr⟩ := h
        subst hst
        have he0 : e0 = e := by
          injection hr
        subst he0
        have hflips : (drainCache st).flips = some e0 :: (takeFlip (drainCache st).flips).2 := by
          rcases hfl2 : (drainCache st).flips with _ | ⟨f, fr⟩
          · rw [hfl2] at hfl
            simp [takeFlip] at hfl
          · rw [hfl2] at hfl
            simp only [takeFlip] at hfl ⊢
            rw [hfl]
        refine ⟨Inv_env hdInv [Event.complete_block (drainCache st).block_ids]
            (takeFlip (drainCache st).flips).2, hdl, ⟨[], ?_, by simp⟩, Or.inr ⟨?_, hts1, hcache1⟩⟩
        · show st.flips = some e0 :: (takeFlip (drainCache st).flips).2
          rw [← hdf]
          exact hflips
        · show ((drainCache st).trace ++
              [Event.complete_block (drainCache st).block_ids]).getLast? = _
          rw [List.getLast?_concat]
    · rename_i st2 i hp
      obtain ⟨hI3, hlen3, hl3, hc3, hn3, p0, htr3⟩ := popOk_inv hdInv hp
      obtain ⟨rI, rl, ⟨pre, hpre, hprenone⟩, rshape⟩ := ih hI3 h
      have hpre2 : (st2.flips : List (Option Nat)) = pre ++ some e :: st'.flips := hpre
      rcases poolNext_ok_flips hp with ⟨hnil, hnil2⟩ | hcons
      · exfalso
        rw [hnil2] at hpre2
        exact absurd hpre2.symm (by simp)
      · refine ⟨rI, ?_, ⟨none :: pre, ?_, ?_⟩, rshape⟩
        · rw [rl]
          show st2.limit = st.limit
          rw [hl3, hdl]
        · rw [← hdf, hcons, hpre2]
          rfl
        · intro f hf
          rcases List.mem_cons.mp hf with h1 | h2
          · exact h1
          · exact hprenone f h2
    · rename_i st2 i p e0 hp
      simp only [Option.some.injEq, Prod.mk.injEq] at h
      obtain ⟨hst, hr⟩ := h
      subst hst
      have he0 : e0 = e := by
        injection hr
      subst he0
      obtain ⟨hEInv, hEts, hEc, hEl, hEn, hEb, hEs, hEtr, hEfl⟩ := popErr_inv hdInv hp
      refine ⟨hEInv, ?_, ⟨[], ?_, by simp⟩, Or.inl ⟨i, p, ?_, rfl⟩⟩
      · show st2.limit = st.limit
        rw [hEl, hdl]
      · show st.flips = some e0 :: st2.flips
        rw [← hdf]
        exact hEfl
      · show st2.trace.getLast? = some (Event.write_block i p.length p)
        rw [hEtr, List.getLast?_concat]

/-- C6: every failure of `write` or `close` passes the backend error to
the caller unchanged and leaves the writer's logical state as it was
before the failing backend operation.  For `write`: cache, committed list
and queued work are untouched and the returned error is exactly the one
the backend produced.  For every failing `close`, fast path or drain
loop: the invariant still accounts for exactly the accepted chunks, the
returned error is exactly the oracle entry of the failing backend call
(every earlier backend call of that close succeeded), and the failing
call is the last recorded event, with per-call restoration: a failed
`write_block` leaves the failed block at the front of the queue with its
original identifier and payload, a failed `complete_block` leaves the
pool and the cache drained with the committed list unchanged, and a
failed `write_once` leaves the cache bytes, the committed list and the
queue untouched.  Moreover, after a `complete_block` failure a retried
`close` issues `complete_block` again with the identical ordered list as
its only backend call. -/
theorem C6_failure_retry_safe :
    (∀ (st : WriterState) (accepted : List Buffer) (bs : Buffer) (st' : WriterState) (e : Nat),
       Inv st accepted → write st bs = some (st', Except.error e) →
       st'.cache = st.cache ∧ st'.block_ids = st.block_ids ∧ st'.tasks = st.tasks ∧
       st.flips = some e :: st'.flips) ∧
    (∀ (st st' : WriterState) (e : Nat), st.tasks = [] → st.block_ids = [] →
       close st = some (st', Except.error e) →
       st'.cache = st.cache ∧ st'.block_ids = [] ∧ st'.tasks = [] ∧
       st.flips = some e :: st'.flips) ∧
    (∀ (st : WriterState) (accepted : List Buffer) (st' : WriterState) (e : Nat),
       Inv st accepted → close st = some (st', Except.error e) →
       Inv st' accepted ∧ st'.limit = st.limit ∧
       (∃ pre, st.flips = pre ++ some e :: st'.flips ∧ ∀ f ∈ pre, f = none) ∧
       ((∃ i b, st'.trace.getLast? = some (Event.write_block i b.length b) ∧
          st'.tasks.head? = some (i, b)) ∨
        (st'.trace.getLast? = some (Event.complete_block st'.block_ids) ∧
          st'.tasks = [] ∧ st'.cache = none) ∨
        (st'.trace.getLast? =
            some (Event.write_once (st.cache.getD []).length (st.cache.getD [])) ∧
          st'.cache = st.cache ∧ st'.tasks = st.tasks ∧
          st'.block_ids = st.block_ids))) ∧
    (∀ (st : WriterState) (accepted : List Buffer) (st' : WriterState) (e : Nat)
       (ids : List Uuid), Inv st accepted → close st = some (st', Except.error e) →
       st'.trace.getLast? = some (Event.complete_block ids) →
       st'.block_ids = ids ∧
       ∀ (st'' : WriterState) (r : Except Nat Unit), close st' = some (st'', r) →
         st''.trace = st'.trace ++ [Event.complete_block ids]) := by
  refine ⟨?_, ?_, ?_, ?_⟩
  · intro st accepted bs st' e hInv hw
    obtain ⟨hl, htr, hres⟩ := write_sound hInv hw
    rcases hres with ⟨habs, -, -⟩ | ⟨e0, heq, -, hts, hc, hb, -, -, hfl⟩
    · exact Except.noConfusion habs
    · have he0 : e0 = e := by
        injection heq.symm
      subst he0
      exact ⟨hc, hb, hts, hfl⟩
  · intro st st' e ht hb h
    rw [close, if_pos ⟨ht, hb⟩] at h
    rcases hfl : st.flips with _ | ⟨f, fr⟩
    · rw [hfl] at h
      simp only [takeFlip, Option.some.injEq, Prod.mk.injEq] at h
      obtain ⟨-, habs⟩ := h
      exact Except.noConfusion habs
    · rw [hfl] at h
      rcases f with _ | e0
      · simp only [takeFlip, Option.some.injEq, Prod.mk.injEq] at h
        obtain ⟨-, habs⟩ := h
        exact Except.noConfusion habs
      · simp only [takeFlip, Option.some.injEq, Prod.mk.injEq] at h
        obtain ⟨hst, hr⟩ := h
        subst hst
        have he0 : e0 = e := by
          injection hr
        subst he0
        exact ⟨rfl, hb, ht, rfl⟩
  · intro st accepted st' e hInv hcl
    by_cases hf : st.tasks = [] ∧ st.block_ids = []
    · obtain ⟨htrace, hts, hbid, -, hl, hres⟩ := close_fast_sound hInv hf hcl
      rcases hres with ⟨habs, -, -⟩ | ⟨e0, heq, hc, hI, hfl⟩
      · exact Except.noConfusion habs
      · have he0 : e = e0 := by
          injection heq
        subst he0
        refine ⟨hI, hl, ⟨[], by simpa using hfl, by simp⟩,
          Or.inr (Or.inr ⟨?_, hc, hts, hbid⟩)⟩
        rw [htrace, List.getLast?_concat]
    · rw [close_nonfast hf] at hcl
      have hcl2 : closeLoopAux (st.tasks.length + 2) st = some (st', Except.error e) := hcl
      obtain ⟨hI, hl, hfl, hshape⟩ := closeLoopAux_err hInv hcl2
      refine ⟨hI, hl, hfl, ?_⟩
      rcases hshape with h1 | h2
      · exact Or.inl h1
      · exact Or.inr (Or.inl h2)
  · intro st accepted st' e ids hInv hcl hlast
    by_cases hf : st.tasks = [] ∧ st.block_ids = []
    · exfalso
      obtain ⟨htrace, -, -, -, -, -⟩ := close_fast_sound hInv hf hcl
      rw [htrace, List.getLast?_concat] at hlast
      exact Event.noConfusion (Option.some.inj hlast)
    · rw [close_nonfast hf] at hcl
      have hcl2 : closeLoopAux (st.tasks.length + 2) st = some (st', Except.error e) := hcl
      obtain ⟨l1, l2, ⟨ext, lext⟩, ⟨tr, htr, lwo, lshape⟩⟩ := closeLoopAux_sound hInv hcl2
      rcases lshape with ⟨habs, -⟩ | ⟨e0, -, hsh⟩
      · exact Except.noConfusion habs
      · rcases hsh with ⟨tr1, i1, n1, b1, htr1, -⟩ | ⟨tr1, htr1, hwb1, hte, hce⟩
        · exfalso
          rw [htr, htr1, ← List.append_assoc, List.getLast?_concat] at hlast
          exact Event.noConfusion (Option.some.inj hlast)
        · have hids : st'.block_ids = ids := by
            rw [htr, htr1, ← List.append_assoc, List.getLast?_concat] at hlast
            have hx := Option.some.inj hlast
            injection hx
          refine ⟨hids, ?_⟩
          intro st'' r h2
          have hbne : st'.block_ids ≠ [] := by
            intro h0
            have hstore : st'.store = [] := by
              have hx := l2.store_ids
              rw [h0] at hx
              exact List.map_eq_nil_iff.mp hx
            have hacc : accepted = [] := by
              have hx := l2.chunks
              rw [hte, hce, hstore] at hx
              simpa [cacheList] using hx.symm
            subst hacc
            have hc0 := hInv.chunks
            simp only [cacheList, List.append_eq_nil, List.map_eq_nil_iff] at hc0
            apply hf
            refine ⟨hc0.1.2, ?_⟩
            rw [← hInv.store_ids, hc0.1.1]
            rfl
          have h3 := close_drained hte hce hbne h2
          rw [h3, hids]
end OpendalBlockWrite

namespace OpendalTypedKv

/-- C9: a typed key-value adapter that does not override `scan` uses the
default bodies: both `scan` and `blocking_scan` return an error of the
`Unsupported` kind tagged with the operation name, for every path, and
never return a key list. -/
theorem C9_default_scan_unsupported (path : String) :
    adapterScanDefault path =
      Except.error { kind := TkErrorKind.Unsupported,
                     operation := "typed_kv::Adapter::scan" } ∧
    adapterBlockingScanDefault path =
      Except.error { kind := TkErrorKind.Unsupported,
                     operation := "typed_kv::Adapter::blocking_scan" } ∧
    (∀ e, adapterScanDefault path = Except.error e → e.kind = TkErrorKind.Unsupported) ∧
    (∀ keys, adapterScanDefault path ≠ Except.ok keys) ∧
    (∀ keys, adapterBlockingScanDefault path ≠ Except.ok keys) := by
  refine ⟨rfl, rfl, ?_, ?_, ?_⟩
  · intro e he
    have hx : ({ kind := TkErrorKind.Unsupported, operation := "typed_kv::Adapter::scan" } : TkError) = e := by
      injection he
    rw [← hx]
  · intro keys hk
    exact Except.noConfusion hk
  · intro keys hk
    exact Except.noConfusion hk

end OpendalTypedKv

namespace OpendalBlockWrite

/-- Witness for C1: a concrete session of two writes under concurrency 2
with one injected block failure, retried to success. -/
theorem C1_order_preserved_witness :
    ({ block_ids := [0, 1], cache := none, tasks := [], limit := 2, nextId := 2, store := [(0, [1]), (1, [2])], trace := [Event.write_block 0 1 [1], Event.write_block 0 1 [1], Event.write_block 1 1 [2], Event.complete_block [0, 1]], flips := [] } : WriterState).trace.getLast? =
      some (Event.complete_block (List.range 2)) ∧
    ({ block_ids := [0, 1], cache := none, tasks := [], limit := 2, nextId := 2, store := [(0, [1]), (1, [2])], trace := [Event.write_block 0 1 [1], Event.write_block 0 1 [1], Event.write_block 1 1 [2], Event.complete_block [0, 1]], flips := [] } : WriterState).block_ids = List.range 2 ∧
    ({ block_ids := [0, 1], cache := none, tasks := [], limit := 2, nextId := 2, store := [(0, [1]), (1, [2])], trace := [Event.write_block 0 1 [1], Event.write_block 0 1 [1], Event.write_block 1 1 [2], Event.complete_block [0, 1]], flips := [] } : WriterState).store.map Prod.fst = List.range 2 ∧
    ({ block_ids := [0, 1], cache := none, tasks := [], limit := 2, nextId := 2, store := [(0, [1]), (1, [2])], trace := [Event.write_block 0 1 [1], Event.write_block 0 1 [1], Event.write_block 1 1 [2], Event.complete_block [0, 1]], flips := [] } : WriterState).store.map Prod.snd = [[1], [2]] ∧
    (({ block_ids := [0, 1], cache := none, tasks := [], limit := 2, nextId := 2, store := [(0, [1]), (1, [2])], trace := [Event.write_block 0 1 [1], Event.write_block 0 1 [1], Event.write_block 1 1 [2], Event.complete_block [0, 1]], flips := [] } : WriterState).store.map Prod.snd).flatten = [[1], [2]].flatten :=
  C1_order_preserved 8 2 [some 1] [[1], [2]] _ rfl (by decide) (by decide)

/-- Witness for C8: a concrete session of three writes with no
failures. -/
theorem C8_two_writes_use_blocks_witness :
    List.countP isWO ({ block_ids := [0, 1, 2], cache := none, tasks := [], limit := 3, nextId := 3, store := [(0, [5]), (1, [6]), (2, [7])], trace := [Event.write_block 0 1 [5], Event.write_block 1 1 [6], Event.write_block 2 1 [7], Event.complete_block [0, 1, 2]], flips := [] } : WriterState).trace = 0 ∧
    1 ≤ List.countP isWB ({ block_ids := [0, 1, 2], cache := none, tasks := [], limit := 3, nextId := 3, store := [(0, [5]), (1, [6]), (2, [7])], trace := [Event.write_block 0 1 [5], Event.write_block 1 1 [6], Event.write_block 2 1 [7], Event.complete_block [0, 1, 2]], flips := [] } : WriterState).trace ∧
    ({ block_ids := [0, 1, 2], cache := none, tasks := [], limit := 3, nextId := 3, store := [(0, [5]), (1, [6]), (2, [7])], trace := [Event.write_block 0 1 [5], Event.write_block 1 1 [6], Event.write_block 2 1 [7], Event.complete_block [0, 1, 2]], flips := [] } : WriterState).trace.getLast? =
      some (Event.complete_block (List.range 3)) :=
  C8_two_writes_use_blocks 8 3 [] [[5], [6], [7]] _ rfl (by decide)

/-- Witness for C3: a concrete failing write on a full pool, and a
concrete two-chunk session. -/
theorem C3_retry_no_duplication_no_loss_witness :
    (({ block_ids := [], cache := some [9], tasks := [(0, [5])], limit := 1, nextId := 1, store := [], trace := [Event.write_block 0 1 [5]], flips := [] } : WriterState).tasks = ({ block_ids := [], cache := some [9], tasks := [(0, [5])], limit := 1, nextId := 1, store := [], trace := [], flips := [some 7] } : WriterState).tasks ∧
     ({ block_ids := [], cache := some [9], tasks := [(0, [5])], limit := 1, nextId := 1, store := [], trace := [Event.write_block 0 1 [5]], flips := [] } : WriterState).cache = ({ block_ids := [], cache := some [9], tasks := [(0, [5])], limit := 1, nextId := 1, store := [], trace := [], flips := [some 7] } : WriterState).cache ∧
     ({ block_ids := [], cache := some [9], tasks := [(0, [5])], limit := 1, nextId := 1, store := [], trace := [Event.write_block 0 1 [5]], flips := [] } : WriterState).nextId = ({ block_ids := [], cache := some [9], tasks := [(0, [5])], limit := 1, nextId := 1, store := [], trace := [], flips := [some 7] } : WriterState).nextId ∧
     ({ block_ids := [], cache := some [9], tasks := [(0, [5])], limit := 1, nextId := 1, store := [], trace := [Event.write_block 0 1 [5]], flips := [] } : WriterState).store = ({ block_ids := [], cache := some [9], tasks := [(0, [5])], limit := 1, nextId := 1, store := [], trace := [], flips := [some 7] } : WriterState).store) ∧
    (({ block_ids := [0, 1], cache := none, tasks := [], limit := 2, nextId := 2, store := [(0, [4]), (1, [4])], trace := [Event.write_block 0 1 [4], Event.write_block 1 1 [4], Event.complete_block [0, 1]], flips := [] } : WriterState).store.map Prod.snd = [[4], [4]] ∧
     (({ block_ids := [0, 1], cache := none, tasks := [], limit := 2, nextId := 2, store := [(0, [4]), (1, [4])], trace := [Event.write_block 0 1 [4], Event.write_block 1 1 [4], Event.complete_block [0, 1]], flips := [] } : WriterState).store.map Prod.fst).Nodup) :=
  ⟨C3_retry_no_duplication_no_loss.1
      { block_ids := [], cache := some [9], tasks := [(0, [5])], limit := 1, nextId := 1, store := [], trace := [], flips := [some 7] }
      [[5], [9]] [3] _ 7 (by constructor <;> decide) rfl,
   C3_retry_no_duplication_no_loss.2 8 2 [] [[4], [4]] _ rfl (by decide)⟩

/-- Witness for C4 (amended): the empty call sequence on a writer built
with concurrency 2. -/
theorem C4_amended_capacity_bound_witness :
    (newWriter 2 []).tasks.length ≤ max 1 2 ∧ (newWriter 2 []).tasks.length ≤ 2 :=
  ⟨(C4_amended_capacity_bound 2 [] [] (newWriter 2 []) rfl).1,
   (C4_amended_capacity_bound 2 [] [] (newWriter 2 []) rfl).2 (by decide)⟩

/-- Witness for C2: concrete zero-write and one-write sessions closed
against a failing oracle. -/
theorem C2_single_shot_fast_path_witness :
    ({ block_ids := [], cache := none, tasks := [], limit := 2, nextId := 0, store := [], trace := [Event.write_once 0 []], flips := [] } : WriterState).trace = [Event.write_once 0 []] ∧
    ({ block_ids := [], cache := none, tasks := [], limit := 2, nextId := 0, store := [], trace := [Event.write_once 0 []], flips := [] } : WriterState).trace.countP isWO = 1 ∧
    ({ block_ids := [], cache := none, tasks := [], limit := 2, nextId := 0, store := [], trace := [Event.write_once 0 []], flips := [] } : WriterState).trace.countP isWB = 0 ∧
    ({ block_ids := [], cache := none, tasks := [], limit := 2, nextId := 0, store := [], trace := [Event.write_once 0 []], flips := [] } : WriterState).trace.countP isCB = 0 :=
  (C2_single_shot_fast_path 2 [some 3] [9]).1
    { block_ids := [], cache := none, tasks := [], limit := 2, nextId := 0, store := [], trace := [Event.write_once 0 []], flips := [] }
    (Except.error 3) rfl

/-- Witness for C6: a failing write on a full pool, a failing fast-path
close, a failing block upload during the drain loop, and a failing
`complete_block` followed by its retried close. -/
theorem C6_failure_retry_safe_witness :
    (({ block_ids := [], cache := some [8], tasks := [(0, [6])], limit := 1, nextId := 1, store := [], trace := [Event.write_block 0 1 [6]], flips := [] } : WriterState).cache = ({ block_ids := [], cache := some [8], tasks := [(0, [6])], limit := 1, nextId := 1, store := [], trace := [], flips := [some 2] } : WriterState).cache ∧
     ({ block_ids := [], cache := some [8], tasks := [(0, [6])], limit := 1, nextId := 1, store := [], trace := [Event.write_block 0 1 [6]], flips := [] } : WriterState).block_ids = ({ block_ids := [], cache := some [8], tasks := [(0, [6])], limit := 1, nextId := 1, store := [], trace := [], flips := [some 2] } : WriterState).block_ids ∧
     ({ block_ids := [], cache := some [8], tasks := [(0, [6])], limit := 1, nextId := 1, store := [], trace := [Event.write_block 0 1 [6]], flips := [] } : WriterState).tasks = ({ block_ids := [], cache := some [8], tasks := [(0, [6])], limit := 1, nextId := 1, store := [], trace := [], flips := [some 2] } : WriterState).tasks ∧
     ({ block_ids := [], cache := some [8], tasks := [(0, [6])], limit := 1, nextId := 1, store := [], trace := [], flips := [some 2] } : WriterState).flips = some 2 :: ({ block_ids := [], cache := some [8], tasks := [(0, [6])], limit := 1, nextId := 1, store := [], trace := [Event.write_block 0 1 [6]], flips := [] } : WriterState).flips) ∧
    (({ block_ids := [], cache := none, tasks := [], limit := 1, nextId := 0, store := [], trace := [Event.write_once 0 []], flips := [] } : WriterState).cache = (newWriter 1 [some 3]).cache ∧
     ({ block_ids := [], cache := none, tasks := [], limit := 1, nextId := 0, store := [], trace := [Event.write_once 0 []], flips := [] } : WriterState).block_ids = [] ∧
     ({ block_ids := [], cache := none, tasks := [], limit := 1, nextId := 0, store := [], trace := [Event.write_once 0 []], flips := [] } : WriterState).tasks = [] ∧
     (newWriter 1 [some 3]).flips = some 3 :: ({ block_ids := [], cache := none, tasks := [], limit := 1, nextId := 0, store := [], trace := [Event.write_once 0 []], flips := [] } : WriterState).flips) ∧
    (Inv ({ block_ids := [], cache := some [2], tasks := [(0, [1])], limit := 1, nextId := 1, store := [], trace := [Event.write_block 0 1 [1]], flips := [] } : WriterState) [[1], [2]] ∧
     ({ block_ids := [], cache := some [2], tasks := [(0, [1])], limit := 1, nextId := 1, store := [], trace := [Event.write_block 0 1 [1]], flips := [] } : WriterState).limit = ({ block_ids := [], cache := some [2], tasks := [(0, [1])], limit := 1, nextId := 1, store := [], trace := [], flips := [some 5] } : WriterState).limit) ∧
    (({ block_ids := [0], cache := none, tasks := [], limit := 1, nextId := 1, store := [(0, [4])], trace := [Event.write_block 0 1 [4], Event.complete_block [0]], flips := [] } : WriterState).block_ids = [0] ∧
     ({ block_ids := [0], cache := none, tasks := [], limit := 1, nextId := 1, store := [(0, [4])], trace := [Event.write_block 0 1 [4], Event.complete_block [0], Event.complete_block [0]], flips := [] } : WriterState).trace = ({ block_ids := [0], cache := none, tasks := [], limit := 1, nextId := 1, store := [(0, [4])], trace := [Event.write_block 0 1 [4], Event.complete_block [0]], flips := [] } : WriterState).trace ++ [Event.complete_block [0]]) :=
  ⟨C6_failure_retry_safe.1
      { block_ids := [], cache := some [8], tasks := [(0, [6])], limit := 1, nextId := 1, store := [], trace := [], flips := [some 2] }
      [[6], [8]] [1] _ 2 (by constructor <;> decide) rfl,
   C6_failure_retry_safe.2.1 (newWriter 1 [some 3]) _ 3 rfl rfl rfl,
   ⟨(C6_failure_retry_safe.2.2.1
       { block_ids := [], cache := some [2], tasks := [(0, [1])], limit := 1, nextId := 1, store := [], trace := [], flips := [some 5] }
       [[1], [2]] _ 5 (by constructor <;> decide) rfl).1,
    (C6_failure_retry_safe.2.2.1
       { block_ids := [], cache := some [2], tasks := [(0, [1])], limit := 1, nextId := 1, store := [], trace := [], flips := [some 5] }
       [[1], [2]] _ 5 (by constructor <;> decide) rfl).2.1⟩,
   (C6_failure_retry_safe.2.2.2
      { block_ids := [0], cache := none, tasks := [], limit := 1, nextId := 1, store := [(0, [4])], trace := [Event.write_block 0 1 [4]], flips := [some 9] }
      [[4]] _ 9 [0] (by constructor <;> decide) rfl rfl).1,
   (C6_failure_retry_safe.2.2.2
      { block_ids := [0], cache := none, tasks := [], limit := 1, nextId := 1, store := [(0, [4])], trace := [Event.write_block 0 1 [4]], flips := [some 9] }
      [[4]] _ 9 [0] (by constructor <;> decide) rfl rfl).2 _ (Except.ok ()) rfl⟩

/-- Witness for C7: the state after one write on a writer built with
concurrency 2. -/
theorem C7_cache_assert_unreachable_witness :
    (cacheList ({ block_ids := [], cache := some [5], tasks := [], limit := 2, nextId := 0, store := [], trace := [], flips := [] } : WriterState).cache).length ≤ 1 ∧
    applyOp ({ block_ids := [], cache := some [5], tasks := [], limit := 2, nextId := 0, store := [], trace := [], flips := [] } : WriterState) Op.close ≠ none :=
  ⟨(C7_cache_assert_unreachable 2 [] [Op.write [5]] _ rfl).1,
   (C7_cache_assert_unreachable 2 [] [Op.write [5]] _ rfl).2 Op.close⟩

end OpendalBlockWrite

namespace OpendalTypedKv

/-- Witness for C9: the default scan bodies evaluated at a concrete
path. -/
theorem C9_default_scan_unsupported_witness :
    adapterScanDefault "dir/" =
      Except.error { kind := TkErrorKind.Unsupported, operation := "typed_kv::Adapter::scan" } ∧
    adapterBlockingScanDefault "dir/" =
      Except.error { kind := TkErrorKind.Unsupported, operation := "typed_kv::Adapter::blocking_scan" } ∧
    ({ kind := TkErrorKind.Unsupported, operation := "typed_kv::Adapter::scan" } : TkError).kind = TkErrorKind.Unsupported ∧
    adapterScanDefault "dir/" ≠ Except.ok [] ∧
    adapterBlockingScanDefault "dir/" ≠ Except.ok ["a"] :=
  ⟨(C9_default_scan_unsupported "dir/").1,
   (C9_default_scan_unsupported "dir/").2.1,
   (C9_default_scan_unsupported "dir/").2.2.1 _ rfl,
   (C9_default_scan_unsupported "dir/").2.2.2.1 [],
   (C9_default_scan_unsupported "dir/").2.2.2.2 ["a"]⟩

end OpendalTypedKv
